import Mathlib

/-!
Verification of the nandtotetris-tools toolchain (Jack compiler, VM
translator, Hack assembler) against its natural-language specification.

The Rust sources are embedded shallowly: each Rust function becomes an
executable Lean definition with the same name (up to Lean naming rules),
machine integers become `Nat`/`Int`, fallible functions return
`Except`/`Option`, and `&mut` state threading becomes explicit state
passing.  A definition whose doc comment starts with `Modelled from the
spec:` covers code of the repository that is not present under `src/`
(only its tests are) and is reconstructed from the specification text.
-/

/-! ## Jack symbol table (src/compiler/src/symbol_table.rs) -/

/-- `Scope` from symbol_table.rs (`local` is a Lean keyword, hence `localVar`). -/
inductive Scope
  | field
  | static
  | argument
  | localVar
deriving DecidableEq, Repr

/-- `Scope::as_segment`. -/
def Scope.as_segment : Scope → String
  | .field => "this"
  | .static => "static"
  | .argument => "argument"
  | .localVar => "local"

/-- `SymbolTableVariable` from symbol_table.rs. -/
structure SymbolTableVariable where
  name : String
  scope : Scope
  var_type : String
  index : Nat
deriving DecidableEq, Repr

/-- `SymbolTable { vars, scopes }`: `vars` is the growable vector of entries,
`scopes` the stack of saved `vars.len()` marks (`Vec::push` appends on the
right in both). -/
structure SymbolTable where
  vars : List SymbolTableVariable
  scopes : List Nat
deriving DecidableEq, Repr

/-- `SymbolTable::new`. -/
def SymbolTable.new : SymbolTable := ⟨[], []⟩

/-- Maximum of a list of naturals, `None` when empty (models
`Iterator::max_by_key` over the `index` field). -/
def listMax? : List Nat → Option Nat
  | [] => none
  | x :: xs =>
    some (match listMax? xs with
      | none => x
      | some m => max x m)

/-- `SymbolTable::find_next_index`: looks only at entries added since the most
recent scope mark (`scopes.last().unwrap_or(&0)`), filters by scope, and
returns max index + 1 (or 0 when there is none). -/
def SymbolTable.find_next_index (t : SymbolTable) (scope : Scope) : Nat :=
  let scope_start_index := t.scopes.getLast?.getD 0
  let idxs := ((t.vars.drop scope_start_index).filter
      (fun v => v.scope == scope)).map (·.index)
  match listMax? idxs with
  | none => 0
  | some m => m + 1

/-- `SymbolTable::add_field`. -/
def SymbolTable.add_field (t : SymbolTable) (var_name var_type : String) :
    SymbolTable :=
  { t with vars :=
      t.vars ++ [⟨var_name, .field, var_type, t.find_next_index .field⟩] }

/-- `SymbolTable::add_static`. -/
def SymbolTable.add_static (t : SymbolTable) (var_name var_type : String) :
    SymbolTable :=
  { t with vars :=
      t.vars ++ [⟨var_name, .static, var_type, t.find_next_index .static⟩] }

/-- `SymbolTable::add_argument`. -/
def SymbolTable.add_argument (t : SymbolTable) (var_name var_type : String) :
    SymbolTable :=
  { t with vars :=
      t.vars ++ [⟨var_name, .argument, var_type, t.find_next_index .argument⟩] }

/-- `SymbolTable::add_local`. -/
def SymbolTable.add_local (t : SymbolTable) (var_name var_type : String) :
    SymbolTable :=
  { t with vars :=
      t.vars ++ [⟨var_name, .localVar, var_type, t.find_next_index .localVar⟩] }

/-- `SymbolTable::count_locals`. -/
def SymbolTable.count_locals (t : SymbolTable) : Nat :=
  (t.vars.filter (fun v => v.scope == .localVar)).length

/-- `SymbolTable::count_fields`. -/
def SymbolTable.count_fields (t : SymbolTable) : Nat :=
  (t.vars.filter (fun v => v.scope == .field)).length

/-- `SymbolTable::find_variable`: innermost-first lookup
(`vars.iter().rev().find(..)`). -/
def SymbolTable.find_variable (t : SymbolTable) (var_name : String) :
    Option SymbolTableVariable :=
  t.vars.reverse.find? (fun v => v.name == var_name)

/-- `SymbolTable::create_scope`: saves the current `vars.len()`. -/
def SymbolTable.create_scope (t : SymbolTable) : SymbolTable :=
  { t with scopes := t.scopes ++ [t.vars.length] }

/-- `SymbolTable::pop_scope`: pops the most recent mark and removes entries
from the end of `vars` until its length is back at the mark (for marks within
range, popping `vars.len() - index` elements from the end is `take index`). -/
def SymbolTable.pop_scope (t : SymbolTable) : SymbolTable :=
  match t.scopes.getLast? with
  | none => t
  | some index => { vars := t.vars.take index, scopes := t.scopes.dropLast }

/-! ### C10: create_scope / adds / pop_scope round-trip -/

/-- One call to an `add_*` method of the symbol table, with its arguments. -/
inductive AddOp
  | addField (name ty : String)
  | addStatic (name ty : String)
  | addArgument (name ty : String)
  | addLocal (name ty : String)

/-- Dispatch a single `add_*` call. -/
def applyAdd (t : SymbolTable) : AddOp → SymbolTable
  | .addField n ty => t.add_field n ty
  | .addStatic n ty => t.add_static n ty
  | .addArgument n ty => t.add_argument n ty
  | .addLocal n ty => t.add_local n ty

/-- Apply a sequence of `add_*` calls left to right. -/
def applyAdds (t : SymbolTable) : List AddOp → SymbolTable
  | [] => t
  | op :: ops => applyAdds (applyAdd t op) ops

/-- One `add_*` call appends exactly one entry to `vars` and leaves `scopes`
unchanged. -/
theorem applyAdd_shape (t : SymbolTable) (op : AddOp) :
    ∃ v, applyAdd t op = ⟨t.vars ++ [v], t.scopes⟩ := by
  cases op <;> exact ⟨_, rfl⟩

/-- Any `add_*` sequence only appends to `vars` and never touches `scopes`. -/
theorem applyAdds_shape (ops : List AddOp) (t : SymbolTable) :
    ∃ extra, (applyAdds t ops).vars = t.vars ++ extra ∧
      (applyAdds t ops).scopes = t.scopes := by
  induction ops generalizing t with
  | nil => exact ⟨[], by simp [applyAdds]⟩
  | cons op ops ih =>
    obtain ⟨v, hv⟩ := applyAdd_shape t op
    obtain ⟨extra, h1, h2⟩ := ih (applyAdd t op)
    refine ⟨v :: extra, ?_, ?_⟩
    · show (applyAdds (applyAdd t op) ops).vars = _
      rw [h1, hv]
      simp
    · show (applyAdds (applyAdd t op) ops).scopes = _
      rw [h2, hv]

/-- C10: for every symbol table state, `create_scope`, then any sequence of
`add_field`/`add_static`/`add_argument`/`add_local` calls, then `pop_scope`
restores the table (its variable list in particular) to exactly its contents
before `create_scope`, so every `find_variable` lookup afterwards returns the
same result as before the scope was created. -/
theorem create_adds_pop_roundtrip (t : SymbolTable) (ops : List AddOp) :
    (applyAdds t.create_scope ops).pop_scope = t ∧
    ∀ name, ((applyAdds t.create_scope ops).pop_scope).find_variable name =
      t.find_variable name := by
  obtain ⟨extra, hv, hs⟩ := applyAdds_shape ops t.create_scope
  have hvars : (applyAdds t.create_scope ops).vars = t.vars ++ extra := by
    simpa [SymbolTable.create_scope] using hv
  have hscopes : (applyAdds t.create_scope ops).scopes =
      t.scopes ++ [t.vars.length] := by
    simpa [SymbolTable.create_scope] using hs
  have hkey : (applyAdds t.create_scope ops).pop_scope = t := by
    unfold SymbolTable.pop_scope
    rw [hscopes, hvars]
    simp [List.take_left]
  exact ⟨hkey, fun name => by rw [hkey]⟩

/-! ## VM translator: push/pop expansion
(src/vm-translator/src/translate_ast/translate_pop.rs, translate_push.rs) -/

/-- `MemorySegment` from src/vm-translator/src/ast.rs (`Local` renamed to
`localSeg`: `local` is a Lean keyword). -/
inductive MemorySegment
  | constant
  | localSeg
  | arguments
  | this
  | that
  | static
  | pointer
  | temp
deriving DecidableEq, Repr

/-- `Address` from src/vm-translator/src/ast.rs (`address: u32` becomes
`Nat`). -/
structure Address where
  memory_segment : MemorySegment
  address : Nat
deriving DecidableEq, Repr

/-- `address_to_temp` from translate_pop.rs (returns the register with a `@`
prefix). -/
def address_to_temp (address : Nat) : Except String String :=
  match address with
  | 0 => .ok "@R5"
  | 1 => .ok "@R6"
  | 2 => .ok "@R7"
  | 3 => .ok "@R8"
  | 4 => .ok "@R9"
  | 5 => .ok "@R10"
  | 6 => .ok "@R11"
  | 7 => .ok "@R12"
  | _ => .error ("Address " ++ toString address ++ " outside scope of temp registers")

/-- `segment_to_var` from translate_pop.rs. -/
def segment_to_var (address : Address) (file_name : String) :
    Except String String :=
  match address.memory_segment with
  | .arguments => .ok "@ARG"
  | .localSeg => .ok "@LCL"
  | .this => .ok "@THIS"
  | .that => .ok "@THAT"
  | .temp => address_to_temp address.address
  | .static => .ok ("@" ++ file_name ++ "." ++ toString address.address)
  | .pointer =>
    match address.address with
    | 0 => .ok "@THIS"
    | 1 => .ok "@THAT"
    | _ => .error ("Invalid pop pointer address " ++ toString address.address)
  | _ => .error "Unable to convert memory segment to address"

/-- `translate_pop` from translate_pop.rs. -/
def translate_pop (address : Address) (file_name : String) :
    Except String (List String) :=
  match address.memory_segment with
  | .arguments | .localSeg | .this | .that => do
    let seg ← segment_to_var address file_name
    .ok ["@" ++ toString address.address, "D=A", seg, "D=D+M", "@SP",
      "M=M-1", "A=M+1", "M=D", "A=A-1", "D=M", "A=A+1", "A=M", "M=D"]
  | .pointer | .static | .temp => do
    let seg ← segment_to_var address file_name
    .ok ["@SP", "M=M-1", "A=M", "D=M", seg, "M=D"]
  | .constant =>
    .error ("Invalid pop statement: pop constant " ++ toString address.address)

/-- `address_to_temp` from translate_push.rs (no `@` prefix there). -/
def address_to_temp_push (address : Nat) : Except String String :=
  match address with
  | 0 => .ok "R5"
  | 1 => .ok "R6"
  | 2 => .ok "R7"
  | 3 => .ok "R8"
  | 4 => .ok "R9"
  | 5 => .ok "R10"
  | 6 => .ok "R11"
  | 7 => .ok "R12"
  | _ => .error ("Address " ++ toString address ++ " outside scope of temp registers")

/-- `translate_address_fetch` from translate_push.rs (returns the lines it
appends to `asm`). -/
def translate_address_fetch (address : Address) (file_name : String) :
    Except String (List String) :=
  match address.memory_segment with
  | .constant => .ok ["@" ++ toString address.address, "D=A"]
  | .localSeg =>
    .ok ["@" ++ toString address.address, "D=A", "@LCL", "A=D+M", "D=M"]
  | .arguments =>
    .ok ["@" ++ toString address.address, "D=A", "@ARG", "A=D+M", "D=M"]
  | .this =>
    .ok ["@" ++ toString address.address, "D=A", "@THIS", "A=D+M", "D=M"]
  | .that =>
    .ok ["@" ++ toString address.address, "D=A", "@THAT", "A=D+M", "D=M"]
  | .static =>
    .ok ["@" ++ file_name ++ "." ++ toString address.address, "D=M"]
  | .temp => do
    let reg ← address_to_temp_push address.address
    .ok ["@" ++ reg, "D=M"]
  | .pointer =>
    match address.address with
    | 0 => .ok ["@THIS", "D=M"]
    | 1 => .ok ["@THAT", "D=M"]
    | _ => .error ("Out of range pointer address " ++ toString address.address)

/-- `translate_push` from translate_push.rs. -/
def translate_push (address : Address) (file_name : String) :
    Except String (List String) :=
  do
    let fetch ← translate_address_fetch address file_name
    .ok (fetch ++ ["@SP", "A=M", "M=D", "@SP", "M=M+1"])

/-- C7: the pop expansion errors exactly for `pop constant k` (all k),
`pop pointer k` with k > 1 and `pop temp k` with k > 7; the push expansion
errors exactly for `push pointer k` with k > 1 and `push temp k` with k > 7;
every other segment/index combination succeeds. -/
theorem translate_push_pop_error_conditions
    (seg : MemorySegment) (k : Nat) (f : String) :
    ((translate_pop ⟨seg, k⟩ f).isOk ↔
      ¬(seg = .constant ∨ (seg = .pointer ∧ 1 < k) ∨ (seg = .temp ∧ 7 < k))) ∧
    ((translate_push ⟨seg, k⟩ f).isOk ↔
      ¬((seg = .pointer ∧ 1 < k) ∨ (seg = .temp ∧ 7 < k))) := by
  constructor
  · cases seg with
    | constant => exact iff_of_false (by exact fun h => nomatch h) (by simp)
    | localSeg => exact iff_of_true rfl (by simp)
    | arguments => exact iff_of_true rfl (by simp)
    | this => exact iff_of_true rfl (by simp)
    | that => exact iff_of_true rfl (by simp)
    | static => exact iff_of_true rfl (by simp)
    | pointer =>
      rcases k with _ | _ | k
      · exact iff_of_true rfl (by simp)
      · exact iff_of_true rfl (by simp)
      · exact iff_of_false (by exact fun h => nomatch h) (by simp)
    | temp =>
      rcases k with _ | _ | _ | _ | _ | _ | _ | _ | k
      iterate 8 exact iff_of_true rfl (by simp)
      exact iff_of_false (by exact fun h => nomatch h) (by simp)
  · cases seg with
    | constant => exact iff_of_true rfl (by simp)
    | localSeg => exact iff_of_true rfl (by simp)
    | arguments => exact iff_of_true rfl (by simp)
    | this => exact iff_of_true rfl (by simp)
    | that => exact iff_of_true rfl (by simp)
    | static => exact iff_of_true rfl (by simp)
    | pointer =>
      rcases k with _ | _ | k
      · exact iff_of_true rfl (by simp)
      · exact iff_of_true rfl (by simp)
      · exact iff_of_false (by exact fun h => nomatch h) (by simp)
    | temp =>
      rcases k with _ | _ | _ | _ | _ | _ | _ | _ | k
      iterate 8 exact iff_of_true rfl (by simp)
      exact iff_of_false (by exact fun h => nomatch h) (by simp)

/-! ## Hack assembler AST and label pass
(src/assembler/src/parser/ast.rs, src/assembler/src/convert_labels.rs) -/

namespace Asm

/-- `Address` from the assembler's ast.rs (`u16` value becomes `Nat`). -/
inductive Address
  | value (v : Nat)
  | symbol (name : String)
deriving DecidableEq, Repr

/-- `Dest` from ast.rs. -/
inductive Dest
  | NULL | M | D | MD | A | AM | AD | AMD
deriving DecidableEq, Repr

/-- `Jump` from ast.rs. -/
inductive Jump
  | NULL | JGT | JEQ | JGE | JLT | JNE | JLE | JMP
deriving DecidableEq, Repr

/-- `Operation` from ast.rs: the 28 canonical ALU computations. -/
inductive Operation
  | zero | one | minusOne | d | a | m | notD | notA | notM
  | minusD | minusA | minusM | dPlus1 | aPlus1 | mPlus1
  | dMinus1 | aMinus1 | mMinus1 | dPlusA | dPlusM | dMinusA | dMinusM
  | aMinusD | mMinusD | dAndA | dAndM | dOrA | dOrM
deriving DecidableEq, Repr

/-- `Command` from ast.rs. -/
structure Command where
  dest : Option Dest
  operation : Operation
  jump : Option Jump
deriving DecidableEq, Repr

/-- `Stmt` from ast.rs. -/
inductive Stmt
  | a (address : Address)
  | c (command : Command)
  | label (name : String)
  | empty
deriving DecidableEq, Repr

/-- The loop body of `find_labels` from convert_labels.rs: walks the statement
list with the enumeration index `line_number` and the running `label_count`,
recording `(name, (line_number - label_count) as u16)` for each label, in
insertion order (the Rust code inserts into a `HashMap`; the recorded pairs
are exactly the insert calls). -/
def find_labels_loop : List Stmt → Nat → Nat → List (String × Nat)
  | [], _, _ => []
  | stmt :: rest, line_number, label_count =>
    match stmt with
    | .label name =>
      (name, (line_number - label_count) % 65536) ::
        find_labels_loop rest (line_number + 1) (label_count + 1)
    | _ => find_labels_loop rest (line_number + 1) label_count

/-- `find_labels` from convert_labels.rs (counters start at 0). -/
def find_labels (statements : List Stmt) : List (String × Nat) :=
  find_labels_loop statements 0 0

/-- Count of A- and C-instructions in a statement list. -/
def countInstructions (statements : List Stmt) : Nat :=
  (statements.filter fun s =>
    match s with
    | .a _ => true
    | .c _ => true
    | _ => false).length

/-- `countInstructions` drops a leading label and counts a leading A/C
instruction. -/
theorem countInstructions_cons (s : Stmt) (l : List Stmt) :
    countInstructions (s :: l) =
      (match s with
        | .a _ => 1
        | .c _ => 1
        | _ => 0) + countInstructions l := by
  cases s <;> simp [countInstructions, List.filter_cons, Nat.add_comm]

theorem find_labels_loop_mem (stmts : List Stmt) (ln lc : Nat)
    (hne : ∀ s ∈ stmts, s ≠ .empty) (hle : lc ≤ ln)
    (hbound : (ln - lc) + stmts.length ≤ 65535) :
    ∀ name addr, (name, addr) ∈ find_labels_loop stmts ln lc ↔
      ∃ i, stmts[i]? = some (.label name) ∧
        addr = (ln - lc) + countInstructions (stmts.take i) := by
  induction stmts generalizing ln lc with
  | nil => intro name addr; simp [find_labels_loop]
  | cons s rest ih =>
    intro name addr
    have hner : ∀ x ∈ rest, x ≠ Stmt.empty := fun x hx => hne x (by simp [hx])
    have hlen : (s :: rest).length = rest.length + 1 := by simp
    cases s with
    | label n =>
      have hd : (ln - lc) % 65536 = ln - lc := by
        apply Nat.mod_eq_of_lt
        rw [hlen] at hbound
        omega
      have hdd : (ln + 1) - (lc + 1) = ln - lc := by omega
      have hrec := ih (ln + 1) (lc + 1) hner (by omega)
        (by rw [hdd]; rw [hlen] at hbound; omega)
      constructor
      · intro hmem
        rcases List.mem_cons.mp hmem with heq | hmem'
        · obtain ⟨h1, h2⟩ := Prod.mk.injEq .. ▸ heq
          refine ⟨0, by simp [h1], ?_⟩
          simpa [countInstructions, hd] using h2
        · obtain ⟨i, hi, ha⟩ := (hrec name addr).mp hmem'
          refine ⟨i + 1, by simpa using hi, ?_⟩
          rw [List.take_succ_cons, countInstructions_cons]
          rw [hdd] at ha
          simpa using ha
      · rintro ⟨i, hi, ha⟩
        cases i with
        | zero =>
          simp only [List.getElem?_cons_zero, Option.some.injEq,
            Stmt.label.injEq] at hi
          apply List.mem_cons.mpr
          left
          simp only [List.take_zero, countInstructions, List.filter_nil,
            List.length_nil, Nat.add_zero] at ha
          rw [Prod.mk.injEq, hd]
          exact ⟨hi.symm, ha⟩
        | succ j =>
          simp only [List.getElem?_cons_succ] at hi
          apply List.mem_cons.mpr
          right
          apply (hrec name addr).mpr
          refine ⟨j, hi, ?_⟩
          rw [hdd]
          rw [List.take_succ_cons, countInstructions_cons] at ha
          simpa using ha
    | a v =>
      have hdd : (ln + 1) - lc = (ln - lc) + 1 := by omega
      have hrec := ih (ln + 1) lc hner (by omega)
        (by rw [hdd]; rw [hlen] at hbound; omega)
      constructor
      · intro hmem
        simp only [find_labels_loop] at hmem
        obtain ⟨i, hi, ha⟩ := (hrec name addr).mp hmem
        refine ⟨i + 1, by simpa using hi, ?_⟩
        rw [List.take_succ_cons, countInstructions_cons]
        rw [hdd] at ha
        simp only [ha]
        omega
      · rintro ⟨i, hi, ha⟩
        cases i with
        | zero => simp at hi
        | succ j =>
          simp only [List.getElem?_cons_succ] at hi
          simp only [find_labels_loop]
          apply (hrec name addr).mpr
          refine ⟨j, hi, ?_⟩
          rw [hdd]
          rw [List.take_succ_cons, countInstructions_cons] at ha
          simp only [ha]
          omega
    | c cmd =>
      have hdd : (ln + 1) - lc = (ln - lc) + 1 := by omega
      have hrec := ih (ln + 1) lc hner (by omega)
        (by rw [hdd]; rw [hlen] at hbound; omega)
      constructor
      · intro hmem
        simp only [find_labels_loop] at hmem
        obtain ⟨i, hi, ha⟩ := (hrec name addr).mp hmem
        refine ⟨i + 1, by simpa using hi, ?_⟩
        rw [List.take_succ_cons, countInstructions_cons]
        rw [hdd] at ha
        simp only [ha]
        omega
      · rintro ⟨i, hi, ha⟩
        cases i with
        | zero => simp at hi
        | succ j =>
          simp only [List.getElem?_cons_succ] at hi
          simp only [find_labels_loop]
          apply (hrec name addr).mpr
          refine ⟨j, hi, ?_⟩
          rw [hdd]
          rw [List.take_succ_cons, countInstructions_cons] at ha
          simp only [ha]
          omega
    | empty => exact absurd rfl (hne .empty (by simp))

/-- C8: on a statement list with `Empty` statements removed (as the assembler
pipeline does before the label pass) and of realistic size, the label pass
binds each label name to exactly the count of A- and C-instructions that
precede it in source order — labels themselves consume no address. -/
theorem find_labels_binds_preceding_instruction_count (stmts : List Stmt)
    (hne : ∀ s ∈ stmts, s ≠ .empty) (hbound : stmts.length ≤ 65535) :
    ∀ name addr, (name, addr) ∈ find_labels stmts ↔
      ∃ i, stmts[i]? = some (.label name) ∧
        addr = countInstructions (stmts.take i) := by
  intro name addr
  have h := find_labels_loop_mem stmts 0 0 hne (le_refl 0) (by simpa using hbound)
    name addr
  simpa [find_labels] using h

/-- A small concrete program: `@21`, `(LOOP)`, `(SECOND)`, `D=A`, `(END)`. -/
def asmDemoStmts : List Stmt :=
  [.a (.value 21), .label "LOOP", .label "SECOND",
   .c ⟨some .D, .a, none⟩, .label "END"]

/-- Witness for C8: in the demo program the consecutive labels `LOOP` and
`SECOND` both bind to address 1 and `END` binds to 2. -/
theorem find_labels_binds_preceding_instruction_count_witness :
    ("LOOP", 1) ∈ find_labels asmDemoStmts ∧
    ("SECOND", 1) ∈ find_labels asmDemoStmts ∧
    ("END", 2) ∈ find_labels asmDemoStmts := by
  have h := find_labels_binds_preceding_instruction_count asmDemoStmts
    (by decide) (by decide)
  refine ⟨(h "LOOP" 1).mpr ⟨1, by decide, by decide⟩,
    (h "SECOND" 1).mpr ⟨2, by decide, by decide⟩,
    (h "END" 2).mpr ⟨4, by decide, by decide⟩⟩

end Asm

/-! ## Decimal rendering of counters

`format!("..{}..", n)` renders counters in decimal (`Nat.repr` in the
embedding).  Distinctness of generated labels needs injectivity of that
rendering, proved here via a decimal re-evaluation of the digit list. -/

/-- Fold a digit-character list back into the number it denotes
(most significant digit first). -/
def foldDigits (acc : Nat) (l : List Char) : Nat :=
  l.foldl (fun a c => a * 10 + (c.toNat - 48)) acc

theorem foldDigits_cons (acc : Nat) (c : Char) (l : List Char) :
    foldDigits acc (c :: l) = foldDigits (acc * 10 + (c.toNat - 48)) l := rfl

theorem digitChar_toNat (k : Nat) (h : k < 10) :
    (Nat.digitChar k).toNat - 48 = k := by
  interval_cases k <;> rfl

theorem foldDigits_toDigitsCore (fuel : Nat) :
    ∀ n, n < 10 ^ fuel → ∀ ds,
      foldDigits 0 (Nat.toDigitsCore 10 fuel n ds) = foldDigits n ds := by
  induction fuel with
  | zero =>
    intro n hn ds
    interval_cases n
    rfl
  | succ fuel ih =>
    intro n hn ds
    rw [Nat.toDigitsCore]
    by_cases h0 : n / 10 = 0
    · have hlt : n < 10 := by omega
      simp only [h0, if_true]
      rw [foldDigits_cons, digitChar_toNat (n % 10) (Nat.mod_lt n (by omega))]
      have : n % 10 = n := Nat.mod_eq_of_lt hlt
      simp [this]
    · simp only [h0, if_false]
      have hdiv : n / 10 < 10 ^ fuel := by
        rw [Nat.div_lt_iff_lt_mul (by omega)]
        calc n < 10 ^ (fuel + 1) := hn
          _ = 10 ^ fuel * 10 := by ring
      rw [ih (n / 10) hdiv (Nat.digitChar (n % 10) :: ds)]
      rw [foldDigits_cons, digitChar_toNat (n % 10) (Nat.mod_lt n (by omega))]
      have : n / 10 * 10 + n % 10 = n := by omega
      rw [this]

theorem foldDigits_toDigits (n : Nat) :
    foldDigits 0 (Nat.toDigits 10 n) = n := by
  have hb : n < 10 ^ (n + 1) :=
    lt_of_lt_of_le (Nat.lt_pow_self (by omega) n)
      (Nat.pow_le_pow_right (by omega) (by omega))
  exact foldDigits_toDigitsCore (n + 1) n hb []

/-- Decimal rendering of naturals is injective. -/
theorem natRepr_injective : Function.Injective Nat.repr := by
  intro m n h
  have hdata : Nat.toDigits 10 m = Nat.toDigits 10 n := by
    have := congrArg String.data h
    simpa [Nat.repr, List.asString] using this
  calc m = foldDigits 0 (Nat.toDigits 10 m) := (foldDigits_toDigits m).symm
    _ = foldDigits 0 (Nat.toDigits 10 n) := by rw [hdata]
    _ = n := foldDigits_toDigits n

/-- Injectivity through the underlying character list
(`(toString m).data` is definitionally `Nat.toDigits 10 m`). -/
theorem natToString_data_injective (m n : Nat)
    (h : (toString m).data = (toString n).data) : m = n := by
  have h3 : Nat.toDigits 10 m = Nat.toDigits 10 n := h
  calc m = foldDigits 0 (Nat.toDigits 10 m) := (foldDigits_toDigits m).symm
    _ = foldDigits 0 (Nat.toDigits 10 n) := by rw [h3]
    _ = n := foldDigits_toDigits n

/-! ## VM translator: `call` expansion
(src/vm-translator/src/translate_ast/translate_ast.rs, `translate_call`) -/

/-- `Function` from the AST variant used by translate_ast.rs
(`{ name, num }`). -/
structure VmFunction where
  name : String
  num : Nat
deriving DecidableEq, Repr

/-- The return-address label `<file>.RETURN_ADDRESS_CALL_<n>` used by
`translate_call`. -/
def returnAddressLabel (file_name : String) (n : Nat) : String :=
  file_name ++ ".RETURN_ADDRESS_CALL_" ++ toString n

/-- `translate_call` from translate_ast.rs: emits the call sequence and
increments the file-scoped call counter (`*call_count += 1` becomes the
second component). -/
def translate_call (function : VmFunction) (call_count : Nat)
    (file_name : String) : List String × Nat :=
  (["@" ++ returnAddressLabel file_name call_count, "D=A",
    "@SP", "M=M+1", "A=M-1", "M=D",
    "@LCL", "D=M", "@SP", "M=M+1", "A=M-1", "M=D",
    "@ARG", "D=M", "@SP", "M=M+1", "A=M-1", "M=D",
    "@THIS", "D=M", "@SP", "M=M+1", "A=M-1", "M=D",
    "@THAT", "D=M", "@SP", "M=M+1", "A=M-1", "M=D",
    "@SP", "D=M", "@" ++ toString (5 + function.num), "D=D-A", "@ARG", "M=D",
    "@SP", "D=M", "@LCL", "M=D",
    "@" ++ function.name, "0;JMP",
    "(" ++ returnAddressLabel file_name call_count ++ ")"],
   call_count + 1)

/-- Push the 15-bit value of a symbol onto the stack (the claim's
"pushes the return-address label value"). -/
def pushSymbolValue (sym : String) : List String :=
  ["@" ++ sym, "D=A", "@SP", "M=M+1", "A=M-1", "M=D"]

/-- Push the memory cell behind a register symbol onto the stack (the claim's
"pushes the current LCL/ARG/THIS/THAT"). -/
def pushSymbolContents (sym : String) : List String :=
  ["@" ++ sym, "D=M", "@SP", "M=M+1", "A=M-1", "M=D"]

/-- The call sequence as the claim describes it: push the return-address
label value; push LCL, ARG, THIS, THAT; `ARG = SP - (5 + N)`; `LCL = SP`;
`goto F`; declare the return-address label. -/
def callClaimSnippet (file_name F : String) (N n : Nat) : List String :=
  pushSymbolValue (returnAddressLabel file_name n) ++
  pushSymbolContents "LCL" ++ pushSymbolContents "ARG" ++
  pushSymbolContents "THIS" ++ pushSymbolContents "THAT" ++
  ["@SP", "D=M", "@" ++ toString (5 + N), "D=D-A", "@ARG", "M=D"] ++
  ["@SP", "D=M", "@LCL", "M=D"] ++
  ["@" ++ F, "0;JMP"] ++
  ["(" ++ returnAddressLabel file_name n ++ ")"]

/-- C5: `call F N` expands to exactly the claimed sequence (push return
address, push LCL/ARG/THIS/THAT, `ARG = SP - 5 - N`, `LCL = SP`, `goto F`,
declare `(<file>.RETURN_ADDRESS_CALL_<n>)`), the call counter comes back
incremented, and distinct counter values give distinct return-address
labels. -/
theorem translate_call_spec (file_name F : String) (N n : Nat) :
    (translate_call ⟨F, N⟩ n file_name).1 = callClaimSnippet file_name F N n ∧
    (translate_call ⟨F, N⟩ n file_name).2 = n + 1 ∧
    (∀ m k : Nat, m ≠ k →
      returnAddressLabel file_name m ≠ returnAddressLabel file_name k) := by
  refine ⟨rfl, rfl, fun m k hmk heq => hmk ?_⟩
  have hdata := congrArg String.data heq
  simp only [returnAddressLabel, String.data_append, List.append_assoc]
    at hdata
  exact natToString_data_injective m k
    (List.append_cancel_left (List.append_cancel_left hdata))

/-! ## A small Hack machine for the emitted snippets

The VM translator emits Hack assembly as text.  To state what a snippet
*does*, the lines are decoded into instructions (using the assembler's own
instruction model `Asm.Command` and predefined symbol table) and executed on
an idealised Hack machine: registers and memory cells hold unbounded
integers, `!x` is two's-complement bitwise not (`-x - 1`). -/

/-- One decoded instruction: a resolved A-instruction, a C-instruction, or a
label declaration (which occupies a slot but does nothing). -/
inductive HackInstr
  | ainst (v : Int)
  | cinst (cmd : Asm.Command)
  | mark
deriving DecidableEq, Repr

/-- Machine state: A and D registers, program counter, memory. -/
structure HackState where
  regA : Int
  regD : Int
  pc : Nat
  mem : Int → Int

/-- Two's-complement bitwise not on ideal integers. -/
def hackNot (x : Int) : Int := -x - 1

/-- The ALU: value of a `comp` field given A, D and M = mem[A]. -/
def computeComp (op : Asm.Operation) (a d m : Int) : Int :=
  match op with
  | .zero => 0
  | .one => 1
  | .minusOne => -1
  | .d => d
  | .a => a
  | .m => m
  | .notD => hackNot d
  | .notA => hackNot a
  | .notM => hackNot m
  | .minusD => -d
  | .minusA => -a
  | .minusM => -m
  | .dPlus1 => d + 1
  | .aPlus1 => a + 1
  | .mPlus1 => m + 1
  | .dMinus1 => d - 1
  | .aMinus1 => a - 1
  | .mMinus1 => m - 1
  | .dPlusA => d + a
  | .dPlusM => d + m
  | .dMinusA => d - a
  | .dMinusM => d - m
  | .aMinusD => a - d
  | .mMinusD => m - d
  | .dAndA => Int.land d a
  | .dAndM => Int.land d m
  | .dOrA => Int.lor d a
  | .dOrM => Int.lor d m

/-- Does the dest field write A? -/
def destWritesA : Option Asm.Dest → Bool
  | some .A | some .AM | some .AD | some .AMD => true
  | _ => false

/-- Does the dest field write D? -/
def destWritesD : Option Asm.Dest → Bool
  | some .D | some .MD | some .AD | some .AMD => true
  | _ => false

/-- Does the dest field write M? -/
def destWritesM : Option Asm.Dest → Bool
  | some .M | some .MD | some .AM | some .AMD => true
  | _ => false

/-- Is the jump taken for computed value `v`? -/
def jumpTaken : Option Asm.Jump → Int → Bool
  | none, _ => false
  | some .NULL, _ => false
  | some .JGT, v => decide (0 < v)
  | some .JEQ, v => decide (v = 0)
  | some .JGE, v => decide (0 ≤ v)
  | some .JLT, v => decide (v < 0)
  | some .JNE, v => decide (v ≠ 0)
  | some .JLE, v => decide (v ≤ 0)
  | some .JMP, _ => true

/-- Execute one instruction.  A C-instruction writes M at the pre-instruction
A, then updates A and D; a taken jump loads the pre-instruction A into the
program counter. -/
def hackStep (s : HackState) : HackInstr → HackState
  | .ainst v => { s with regA := v, pc := s.pc + 1 }
  | .mark => { s with pc := s.pc + 1 }
  | .cinst cmd =>
    let v := computeComp cmd.operation s.regA s.regD (s.mem s.regA)
    { regA := if destWritesA cmd.dest then v else s.regA
      regD := if destWritesD cmd.dest then v else s.regD
      mem := if destWritesM cmd.dest then
          (fun x => if x = s.regA then v else s.mem x) else s.mem
      pc := if jumpTaken cmd.jump v then s.regA.toNat else s.pc + 1 }

/-- Run with fuel; stops when the program counter leaves the program. -/
def hackRun (prog : List HackInstr) : Nat → HackState → HackState
  | 0, s => s
  | fuel + 1, s =>
    match prog[s.pc]? with
    | none => s
    | some i => hackRun prog fuel (hackStep s i)

/-- Comp-field lookup (the canonical Hack table, as encoded by the
assembler's `convert_operation`). -/
def compOfString (s : String) : Option Asm.Operation :=
  match s with
  | "0" => some .zero
  | "1" => some .one
  | "-1" => some .minusOne
  | "D" => some .d
  | "A" => some .a
  | "M" => some .m
  | "!D" => some .notD
  | "!A" => some .notA
  | "!M" => some .notM
  | "-D" => some .minusD
  | "-A" => some .minusA
  | "-M" => some .minusM
  | "D+1" => some .dPlus1
  | "A+1" => some .aPlus1
  | "M+1" => some .mPlus1
  | "D-1" => some .dMinus1
  | "A-1" => some .aMinus1
  | "M-1" => some .mMinus1
  | "D+A" => some .dPlusA
  | "A+D" => some .dPlusA
  | "D+M" => some .dPlusM
  | "M+D" => some .dPlusM
  | "D-A" => some .dMinusA
  | "D-M" => some .dMinusM
  | "A-D" => some .aMinusD
  | "M-D" => some .mMinusD
  | "D&A" => some .dAndA
  | "D&M" => some .dAndM
  | "D|A" => some .dOrA
  | "D|M" => some .dOrM
  | _ => none

/-- Dest-field lookup; the empty string means no dest. -/
def destOfString (s : String) : Option (Option Asm.Dest) :=
  match s with
  | "" => some none
  | "M" => some (some .M)
  | "D" => some (some .D)
  | "MD" => some (some .MD)
  | "A" => some (some .A)
  | "AM" => some (some .AM)
  | "AD" => some (some .AD)
  | "AMD" => some (some .AMD)
  | _ => none

/-- Jump-field lookup; the empty string means no jump. -/
def jumpOfString (s : String) : Option (Option Asm.Jump) :=
  match s with
  | "" => some none
  | "JGT" => some (some .JGT)
  | "JEQ" => some (some .JEQ)
  | "JGE" => some (some .JGE)
  | "JLT" => some (some .JLT)
  | "JNE" => some (some .JNE)
  | "JLE" => some (some .JLE)
  | "JMP" => some (some .JMP)
  | _ => none

/-- Split a character list at every occurrence of `c` (like
`String::splitOn`, but by structural recursion so that the kernel can
evaluate it). -/
def splitOnChar (c : Char) : List Char → List (List Char)
  | [] => [[]]
  | x :: rest =>
    let r := splitOnChar c rest
    if x = c then [] :: r
    else
      match r with
      | [] => [[x]]
      | h :: t => (x :: h) :: t

/-- Read a non-empty all-digit character list as a number. -/
def charsToNatAux : List Char → Nat → Option Nat
  | [], acc => some acc
  | c :: rest, acc =>
    if c.isDigit then charsToNatAux rest (acc * 10 + (c.toNat - 48))
    else none

/-- `charsToNat? l` is the numeric value of `l` when `l` is a non-empty digit
string, else `none`. -/
def charsToNat? : List Char → Option Nat
  | [] => none
  | l => charsToNatAux l 0

/-- Decode a C-instruction line `dest=comp;jump`. -/
def decodeC (line : List Char) : Option Asm.Command :=
  let destRest :=
    match splitOnChar '=' line with
    | [c] => (([] : List Char), c)
    | [d, c] => (d, c)
    | _ => (line, [])
  let compJump :=
    match splitOnChar ';' destRest.2 with
    | [c] => (c, ([] : List Char))
    | [c, j] => (c, j)
    | _ => (destRest.2, [])
  match destOfString (String.mk destRest.1),
      compOfString (String.mk compJump.1),
      jumpOfString (String.mk compJump.2) with
  | some d, some c, some j => some ⟨d, c, j⟩
  | _, _, _ => none

/-- The assembler's predefined symbols
(src/assembler/src/symbol_table.rs, `create_symbol_table`). -/
def predefinedSymbol (s : String) : Option Nat :=
  match s with
  | "R0" => some 0
  | "R1" => some 1
  | "R2" => some 2
  | "R3" => some 3
  | "R4" => some 4
  | "R5" => some 5
  | "R6" => some 6
  | "R7" => some 7
  | "R8" => some 8
  | "R9" => some 9
  | "R10" => some 10
  | "R11" => some 11
  | "R12" => some 12
  | "R13" => some 13
  | "R14" => some 14
  | "R15" => some 15
  | "SCREEN" => some 16384
  | "KBD" => some 24576
  | "SP" => some 0
  | "LCL" => some 1
  | "ARG" => some 2
  | "THIS" => some 3
  | "THAT" => some 4
  | _ => none

/-- Index of the declaration `(sym)` in the line list (labels resolve to
their own slot, which the interpreter skips). -/
def labelIndexIn (datas : List (List Char)) (sym : List Char) : Option Nat :=
  datas.findIdx? (fun l => l = '(' :: (sym ++ [')']))

/-- Decode one emitted line. -/
def decodeLine (datas : List (List Char)) (line : List Char) :
    Option HackInstr :=
  match line with
  | '(' :: _ => some .mark
  | '@' :: sym =>
    (match charsToNat? sym with
     | some v => some (.ainst (Int.ofNat v))
     | none =>
       match predefinedSymbol (String.mk sym) with
       | some v => some (.ainst (Int.ofNat v))
       | none => (labelIndexIn datas sym).map (fun i => .ainst (Int.ofNat i)))
  | _ => (decodeC line).map .cinst

/-- Decode a whole snippet (labels resolve within the snippet). -/
def decodeProg (lines : List String) : Option (List HackInstr) :=
  let datas := lines.map String.data
  datas.mapM (decodeLine datas)

/-- Decode and run a snippet on a state. -/
def runSnippet (lines : List String) (fuel : Nat) (s : HackState) :
    Option HackState :=
  (decodeProg lines).map (fun prog => hackRun prog fuel s)

/-- A stack state for binary operations: SP = 258, x at 256, y at 257
(y is the top of stack), all other cells 0; A, D and pc start at 0. -/
def cmpStartState (x y : Int) : HackState :=
  ⟨0, 0, 0, fun a => if a = 0 then 258 else if a = 256 then x
    else if a = 257 then y else 0⟩

/-! ## VM translator: comparison expansion
(src/vm-translator/src/translate_ast/translate_ast.rs,
`translate_eq` / `translate_gt` / `translate_lt`) -/

/-- `translate_eq` from translate_ast.rs (the counter increment is the second
component). -/
def translate_eq (eq_counter : Nat) (file_name : String) :
    List String × Nat :=
  (["@SP", "AM=M-1", "D=M", "A=A-1", "MD=D-M", "M=M-1",
    "@" ++ file_name ++ ".EQ_END_" ++ toString eq_counter, "D;JEQ",
    "@SP", "A=M-1", "M=0",
    "(" ++ file_name ++ ".EQ_END_" ++ toString eq_counter ++ ")"],
   eq_counter + 1)

/-- `translate_gt` from translate_ast.rs. -/
def translate_gt (gt_counter : Nat) (file_name : String) :
    List String × Nat :=
  (["@SP", "AM=M-1", "D=M", "A=A-1", "D=M-D", "M=-1",
    "@" ++ file_name ++ ".GT_END_" ++ toString gt_counter, "D;JGT",
    "@SP", "A=M-1", "M=0",
    "(" ++ file_name ++ ".GT_END_" ++ toString gt_counter ++ ")"],
   gt_counter + 1)

/-- `translate_lt` from translate_ast.rs. -/
def translate_lt (lt_counter : Nat) (file_name : String) :
    List String × Nat :=
  (["@SP", "AM=M-1", "D=M", "A=A-1", "D=M-D", "M=-1",
    "@" ++ file_name ++ ".LT_END_" ++ toString lt_counter, "D;JLT",
    "@SP", "A=M-1", "M=0",
    "(" ++ file_name ++ ".LT_END_" ++ toString lt_counter ++ ")"],
   lt_counter + 1)

/-- The comparison snippet exactly as the claim describes all three ops:
compute `x - y` into D (`D=M-D` after popping y into D), pre-set the result
cell to `-1`, branch to the per-op end label when the comparison holds
(jump `jmp`), overwrite the result with 0 on fallthrough. -/
def cmpClaimSnippet (stem jmp : String) (counter : Nat)
    (file_name : String) : List String :=
  ["@SP", "AM=M-1", "D=M", "A=A-1", "D=M-D", "M=-1",
   "@" ++ file_name ++ "." ++ stem ++ "_END_" ++ toString counter,
   "D;" ++ jmp,
   "@SP", "A=M-1", "M=0",
   "(" ++ file_name ++ "." ++ stem ++ "_END_" ++ toString counter ++ ")"]

/-- C6 counterexample: the `eq` snippet does not have the claimed shape — it
contains `MD=D-M` (computing y − x) and `M=M-1` instead of `D=M-D` and a
pre-set `M=-1` — and semantically, with x = 0 and y = 2 on the stack, after
the six instructions preceding the branch the result cell holds 1 (= y−x−1),
not the claimed pre-set -1, and D holds 2 (= y−x), not x−y = −2. -/
theorem translate_eq_breaks_claim_shape :
    (translate_eq 0 "f").1 ≠ cmpClaimSnippet "EQ" "JEQ" 0 "f" ∧
    (runSnippet (translate_eq 0 "f").1 6 (cmpStartState 0 2)).map
      (fun s => (s.mem 256, s.regD)) = some (1, 2) := by
  constructor
  · decide
  · rfl

/-- C6 as amended: `gt` and `lt` emit exactly the claimed snippet (compute
x − y into D, pre-set the result cell to −1, branch to the per-op end label
on the condition, overwrite with 0 on fallthrough); `eq` instead computes
y − x and turns the result cell into y−x−1 before the branch; and for all
three ops the executed snippet (on the idealised Hack machine, stack
x below y, SP = 258) leaves −1 on top of the stack exactly when the
condition holds and 0 otherwise, with SP decremented by one. -/
theorem cmp_translate_amended :
    (∀ c f, (translate_gt c f).1 = cmpClaimSnippet "GT" "JGT" c f ∧
      (translate_lt c f).1 = cmpClaimSnippet "LT" "JLT" c f) ∧
    (∀ x y : Int,
      (runSnippet (translate_eq 0 "f").1 20 (cmpStartState x y)).map
        (fun s => (s.mem 256, s.mem 0)) =
      some ((if x = y then -1 else 0), 257)) ∧
    (∀ x y : Int,
      (runSnippet (translate_gt 0 "f").1 20 (cmpStartState x y)).map
        (fun s => (s.mem 256, s.mem 0)) =
      some ((if y < x then -1 else 0), 257)) ∧
    (∀ x y : Int,
      (runSnippet (translate_lt 0 "f").1 20 (cmpStartState x y)).map
        (fun s => (s.mem 256, s.mem 0)) =
      some ((if x < y then -1 else 0), 257)) := by
  refine ⟨?_, ?_, ?_, ?_⟩
  · intro c f
    constructor <;>
      simp [translate_gt, translate_lt, cmpClaimSnippet, String.append_assoc]
  · intro x y
    have hdec : decodeProg (translate_eq 0 "f").1 =
        some [.ainst 0, .cinst ⟨some .AM, .mMinus1, none⟩,
          .cinst ⟨some .D, .m, none⟩, .cinst ⟨some .A, .aMinus1, none⟩,
          .cinst ⟨some .MD, .dMinusM, none⟩, .cinst ⟨some .M, .mMinus1, none⟩,
          .ainst 11, .cinst ⟨none, .d, some .JEQ⟩,
          .ainst 0, .cinst ⟨some .A, .mMinus1, none⟩,
          .cinst ⟨some .M, .zero, none⟩, .mark] := by rfl
    rw [runSnippet, hdec, Option.map_some']
    by_cases hxy : x = y
    · subst hxy
      simp [hackRun, hackStep, computeComp, destWritesA, destWritesD,
        destWritesM, jumpTaken, cmpStartState]
    · have hne : y - x ≠ 0 := sub_ne_zero.mpr (Ne.symm hxy)
      simp [hackRun, hackStep, computeComp, destWritesA, destWritesD,
        destWritesM, jumpTaken, cmpStartState, hxy, decide_eq_false hne]
  · intro x y
    have hdec : decodeProg (translate_gt 0 "f").1 =
        some [.ainst 0, .cinst ⟨some .AM, .mMinus1, none⟩,
          .cinst ⟨some .D, .m, none⟩, .cinst ⟨some .A, .aMinus1, none⟩,
          .cinst ⟨some .D, .mMinusD, none⟩, .cinst ⟨some .M, .minusOne, none⟩,
          .ainst 11, .cinst ⟨none, .d, some .JGT⟩,
          .ainst 0, .cinst ⟨some .A, .mMinus1, none⟩,
          .cinst ⟨some .M, .zero, none⟩, .mark] := by rfl
    rw [runSnippet, hdec, Option.map_some']
    by_cases hxy : y < x
    · have hpos : (0 : Int) < x - y := by omega
      simp [hackRun, hackStep, computeComp, destWritesA, destWritesD,
        destWritesM, jumpTaken, cmpStartState, hxy, decide_eq_true hpos]
    · have hnpos : ¬((0 : Int) < x - y) := by omega
      simp [hackRun, hackStep, computeComp, destWritesA, destWritesD,
        destWritesM, jumpTaken, cmpStartState, hxy, decide_eq_false hnpos]
  · intro x y
    have hdec : decodeProg (translate_lt 0 "f").1 =
        some [.ainst 0, .cinst ⟨some .AM, .mMinus1, none⟩,
          .cinst ⟨some .D, .m, none⟩, .cinst ⟨some .A, .aMinus1, none⟩,
          .cinst ⟨some .D, .mMinusD, none⟩, .cinst ⟨some .M, .minusOne, none⟩,
          .ainst 11, .cinst ⟨none, .d, some .JLT⟩,
          .ainst 0, .cinst ⟨some .A, .mMinus1, none⟩,
          .cinst ⟨some .M, .zero, none⟩, .mark] := by rfl
    rw [runSnippet, hdec, Option.map_some']
    by_cases hxy : x < y
    · have hneg : x - y < (0 : Int) := by omega
      simp [hackRun, hackStep, computeComp, destWritesA, destWritesD,
        destWritesM, jumpTaken, cmpStartState, hxy, decide_eq_true hneg]
    · have hnneg : ¬(x - y < (0 : Int)) := by omega
      simp [hackRun, hackStep, computeComp, destWritesA, destWritesD,
        destWritesM, jumpTaken, cmpStartState, hxy, decide_eq_false hnneg]

/-- Witness for C5 at a concrete call: `call Sys.init 0` in file `Main` with
counter 0, and distinctness of the labels for counters 0 and 1. -/
theorem translate_call_spec_witness :
    (translate_call ⟨"Sys.init", 0⟩ 0 "Main").1 =
      callClaimSnippet "Main" "Sys.init" 0 0 ∧
    returnAddressLabel "Main" 0 ≠ returnAddressLabel "Main" 1 := by
  have h := translate_call_spec "Main" "Sys.init" 0 0
  exact ⟨h.1, h.2.2 0 1 (by decide)⟩

/-! ## VM translator line parser (src/vm-translator/src/parser.rs and
src/vm-translator/src/ast.rs) -/

namespace Vm

/-- `Function` from src/vm-translator/src/ast.rs (the parser-side variant,
with `num_locals`). -/
structure Function where
  name : String
  num_locals : Nat
deriving DecidableEq, Repr

/-- `Operation` from src/vm-translator/src/ast.rs.  There is no `Call`
variant (the enum ends with `// TODO: Implement support for call`);
`Return` is renamed `returnOp` (Lean keyword). -/
inductive Operation
  | pop (address : Address)
  | push (address : Address)
  | label (name : String)
  | function (function : Function)
  | returnOp
  | conditionalJump (name : String)
  | jump (name : String)
  | add
  | sub
  | neg
  | eq
  | gt
  | lt
  | and
  | or
  | not
deriving DecidableEq, Repr

/-- `Stmt` from src/vm-translator/src/ast.rs. -/
structure Stmt where
  operation : Operation
  text : String
deriving DecidableEq, Repr

/-- nom `space0`/`space1` character class (space and tab). -/
def isSpaceTab (c : Char) : Bool := c = ' ' || c = '\t'

/-- nom `multispace0` character class. -/
def isMultiSpace (c : Char) : Bool :=
  c = ' ' || c = '\t' || c = '\n' || c = '\r'

/-- nom `tag`: match a literal prefix, return the rest. -/
def tag (t : List Char) (i : List Char) : Option (List Char) :=
  if t.isPrefixOf i then some (i.drop t.length) else none

/-- nom `space1`: at least one space/tab, consumed greedily. -/
def space1 (i : List Char) : Option (List Char) :=
  match i with
  | c :: _ => if isSpaceTab c then some (i.dropWhile isSpaceTab) else none
  | [] => none

/-- nom `u32`: a non-empty digit run whose value fits in 32 bits. -/
def parse_u32 (i : List Char) : Option (List Char × Nat) :=
  let ds := i.takeWhile (·.isDigit)
  match charsToNat? ds with
  | some v => if v < 4294967296 then some (i.dropWhile (·.isDigit), v) else none
  | none => none

/-- `parse_memory_segment` from parser.rs (tags tried in source order). -/
def parse_memory_segment (i : List Char) :
    Option (List Char × MemorySegment) :=
  match tag ("argument").data i with
  | some r => some (r, .arguments)
  | none =>
  match tag ("local").data i with
  | some r => some (r, .localSeg)
  | none =>
  match tag ("static").data i with
  | some r => some (r, .static)
  | none =>
  match tag ("constant").data i with
  | some r => some (r, .constant)
  | none =>
  match tag ("this").data i with
  | some r => some (r, .this)
  | none =>
  match tag ("that").data i with
  | some r => some (r, .that)
  | none =>
  match tag ("pointer").data i with
  | some r => some (r, .pointer)
  | none =>
  match tag ("temp").data i with
  | some r => some (r, .temp)
  | none => none

/-- `parse_name` from parser.rs: `many_till(anychar, alt((space1, eof)))` —
everything up to the first space/tab run (which is consumed) or end of
input. -/
def parse_name (i : List Char) : Option (List Char × String) :=
  let name := i.takeWhile (fun c => !(isSpaceTab c))
  some ((i.drop name.length).dropWhile isSpaceTab, String.mk name)

/-- `parse_push` from parser.rs. -/
def parse_push (i : List Char) : Option (List Char × Option Operation) := do
  let i1 := i.dropWhile isSpaceTab
  let i2 ← tag ("push").data i1
  let i3 ← space1 i2
  let (i4, seg) ← parse_memory_segment i3
  let i5 ← space1 i4
  let (i6, address) ← parse_u32 i5
  some (i6, some (.push ⟨seg, address⟩))

/-- `parse_pop` from parser.rs. -/
def parse_pop (i : List Char) : Option (List Char × Option Operation) := do
  let i1 := i.dropWhile isSpaceTab
  let i2 ← tag ("pop").data i1
  let i3 ← space1 i2
  let (i4, seg) ← parse_memory_segment i3
  let i5 ← space1 i4
  let (i6, address) ← parse_u32 i5
  some (i6, some (.pop ⟨seg, address⟩))

/-- `parse_label` from parser.rs. -/
def parse_label (i : List Char) : Option (List Char × Option Operation) := do
  let i1 := i.dropWhile isSpaceTab
  let i2 ← tag ("label").data i1
  let i3 ← space1 i2
  let (i4, name) ← parse_name i3
  some (i4, some (.label name))

/-- `parse_goto` from parser.rs. -/
def parse_goto (i : List Char) : Option (List Char × Option Operation) := do
  let i1 := i.dropWhile isSpaceTab
  let i2 ← tag ("goto").data i1
  let i3 ← space1 i2
  let (i4, name) ← parse_name i3
  some (i4, some (.jump name))

/-- `parse_if_goto` from parser.rs. -/
def parse_if_goto (i : List Char) :
    Option (List Char × Option Operation) := do
  let i1 := i.dropWhile isSpaceTab
  let i2 ← tag ("if-goto").data i1
  let i3 ← space1 i2
  let (i4, name) ← parse_name i3
  some (i4, some (.conditionalJump name))

/-- `parse_function` from parser.rs (note: no leading `space0` in the
source). -/
def parse_function (i : List Char) :
    Option (List Char × Option Operation) := do
  let i2 ← tag ("function").data i
  let i3 ← space1 i2
  let (i4, name) ← parse_name i3
  let (i5, num_locals) ← parse_u32 i4
  some (i5, some (.function ⟨name, num_locals⟩))

/-- `parse_binary_operations` from parser.rs. -/
def parse_binary_operations (i : List Char) :
    Option (List Char × Option Operation) :=
  let i1 := i.dropWhile isSpaceTab
  match tag ("add").data i1 with
  | some r => some (r, some .add)
  | none =>
  match tag ("sub").data i1 with
  | some r => some (r, some .sub)
  | none =>
  match tag ("eq").data i1 with
  | some r => some (r, some .eq)
  | none =>
  match tag ("gt").data i1 with
  | some r => some (r, some .gt)
  | none =>
  match tag ("lt").data i1 with
  | some r => some (r, some .lt)
  | none =>
  match tag ("and").data i1 with
  | some r => some (r, some .and)
  | none =>
  match tag ("or").data i1 with
  | some r => some (r, some .or)
  | none => none

/-- `parse_unary_operations` from parser.rs. -/
def parse_unary_operations (i : List Char) :
    Option (List Char × Option Operation) :=
  let i1 := i.dropWhile isSpaceTab
  match tag ("neg").data i1 with
  | some r => some (r, some .neg)
  | none =>
  match tag ("not").data i1 with
  | some r => some (r, some .not)
  | none => none

/-- `parse_comment` from parser.rs: `space0`, `//`, rest of line. -/
def parse_comment (i : List Char) :
    Option (List Char × Option Operation) := do
  let i1 := i.dropWhile isSpaceTab
  let i2 ← tag ("//").data i1
  some (i2.dropWhile (fun c => c ≠ '\n' && c ≠ '\r'), none)

/-- `parse_empty_lines` from parser.rs:
`all_consuming(alt((multispace0, line_ending)))` — `multispace0` always
succeeds first, so the line parses iff it is all whitespace. -/
def parse_empty_lines (i : List Char) :
    Option (List Char × Option Operation) :=
  if (i.dropWhile isMultiSpace).isEmpty then some ([], none) else none

/-- `parse_operation` from parser.rs: the alternation, in source order. -/
def parse_operation (i : List Char) :
    Option (List Char × Option Operation) :=
  (parse_push i).orElse fun _ =>
  (parse_pop i).orElse fun _ =>
  (parse_label i).orElse fun _ =>
  (parse_goto i).orElse fun _ =>
  (parse_if_goto i).orElse fun _ =>
  (parse_function i).orElse fun _ =>
  (parse_binary_operations i).orElse fun _ =>
  (parse_unary_operations i).orElse fun _ =>
  (parse_comment i).orElse fun _ =>
  parse_empty_lines i

/-- The driver loop of `parser` from parser.rs over the already-split lines:
any line whose `parse_operation` fails aborts with an error; `None`
operations (comments, blanks) are skipped. -/
def runLineLoop : List String → Except String (List Stmt)
  | [] => .ok []
  | line :: rest =>
    match parse_operation line.data with
    | none => .error ("Error occurred parsing line " ++ line)
    | some (_, none) => runLineLoop rest
    | some (_, some op) =>
      match runLineLoop rest with
      | .ok stmts => .ok (⟨op, line⟩ :: stmts)
      | .error e => .error e

end Vm

namespace Vm

theorem dropWhile_spaces (ws : List Char)
    (hws : ∀ c ∈ ws, isSpaceTab c = true) (d : Char) (l : List Char)
    (hd : isSpaceTab d = false) :
    (ws ++ d :: l).dropWhile isSpaceTab = d :: l := by
  induction ws with
  | nil => simp [List.dropWhile, hd]
  | cons w ws ih =>
    have hw : isSpaceTab w = true := hws w (by simp)
    simp only [List.cons_append, List.dropWhile, hw]
    exact ih (fun c hc => hws c (by simp [hc]))

theorem dropWhile_multispaces (ws : List Char)
    (hws : ∀ c ∈ ws, isSpaceTab c = true) (d : Char) (l : List Char)
    (hd : isMultiSpace d = false) :
    (ws ++ d :: l).dropWhile isMultiSpace = d :: l := by
  induction ws with
  | nil => simp [List.dropWhile, hd]
  | cons w ws ih =>
    have hw : isSpaceTab w = true := hws w (by simp)
    have hw2 : isMultiSpace w = true := by
      simp [isSpaceTab] at hw
      rcases hw with h | h <;> simp [isMultiSpace, h]
    simp only [List.cons_append, List.dropWhile, hw2]
    exact ih (fun c hc => hws c (by simp [hc]))

theorem tag_function_space (w : Char) (hw : isSpaceTab w = true)
    (l : List Char) : tag ("function").data (w :: l) = none := by
  simp [isSpaceTab] at hw
  rcases hw with h | h <;> simp [h, tag, List.isPrefixOf]

/-- C9: a line whose opcode is `call` or `return` (optionally preceded by
spaces/tabs, with anything following) matches none of the opcode templates —
`parse_operation` fails — and therefore the line loop of `parser` aborts
with an error on any program containing such a line. -/
theorem vm_line_parse_rejects_call_and_return (ws rest : List Char)
    (hws : ∀ c ∈ ws, isSpaceTab c = true) :
    parse_operation (ws ++ ('c' :: 'a' :: 'l' :: 'l' :: rest)) = none ∧
    parse_operation
      (ws ++ ('r' :: 'e' :: 't' :: 'u' :: 'r' :: 'n' :: rest)) = none ∧
    (∀ (lines : List String) (line : String), line ∈ lines →
      (line.data = ws ++ ('c' :: 'a' :: 'l' :: 'l' :: rest) ∨
       line.data = ws ++ ('r' :: 'e' :: 't' :: 'u' :: 'r' :: 'n' :: rest)) →
      ∃ e, runLineLoop lines = .error e) := by
  have hko : ∀ (d : Char) (l : List Char), isSpaceTab d = false →
      isMultiSpace d = false →
      tag ("push").data (d :: l) = none →
      tag ("pop").data (d :: l) = none →
      tag ("label").data (d :: l) = none →
      tag ("goto").data (d :: l) = none →
      tag ("if-goto").data (d :: l) = none →
      tag ("add").data (d :: l) = none →
      tag ("sub").data (d :: l) = none →
      tag ("eq").data (d :: l) = none →
      tag ("gt").data (d :: l) = none →
      tag ("lt").data (d :: l) = none →
      tag ("and").data (d :: l) = none →
      tag ("or").data (d :: l) = none →
      tag ("neg").data (d :: l) = none →
      tag ("not").data (d :: l) = none →
      tag ("//").data (d :: l) = none →
      tag ("function").data (d :: l) = none →
      parse_operation (ws ++ d :: l) = none := by
    intro d l hd hdm hq1 hq2 hq3 hq4 hq5 hq6 hq7 hq8 hq9 hq10 hq11 hq12
      hq13 hq14 hq15 hq16
    have hdw := dropWhile_spaces ws hws d l hd
    have hfn : tag ("function").data (ws ++ d :: l) = none := by
      cases ws with
      | nil => exact hq16
      | cons w ws' => exact tag_function_space w (hws w (by simp)) _
    have hmw := dropWhile_multispaces ws hws d l hdm
    simp only [parse_operation, parse_push, parse_pop, parse_label,
      parse_goto, parse_if_goto, parse_function, parse_binary_operations,
      parse_unary_operations, parse_comment, parse_empty_lines, hdw, hfn,
      hmw, hq1, hq2, hq3, hq4, hq5, hq6, hq7, hq8, hq9, hq10, hq11, hq12,
      hq13, hq14, hq15]
    rfl
  have hcall : parse_operation (ws ++ ('c' :: 'a' :: 'l' :: 'l' :: rest)) =
      none := by
    apply hko <;> rfl
  have hret : parse_operation
      (ws ++ ('r' :: 'e' :: 't' :: 'u' :: 'r' :: 'n' :: rest)) = none := by
    apply hko <;> rfl
  refine ⟨hcall, hret, ?_⟩
  intro lines line hmem hdata
  have hfail : parse_operation line.data = none := by
    rcases hdata with h | h
    · rw [h]; exact hcall
    · rw [h]; exact hret
  clear hdata
  induction lines with
  | nil => exact absurd hmem (by simp)
  | cons hd tl ih =>
    rcases List.mem_cons.mp hmem with heq | hmem'
    · subst heq
      refine ⟨"Error occurred parsing line " ++ line, ?_⟩
      unfold runLineLoop
      rw [hfail]
    · obtain ⟨e, he⟩ := ih hmem'
      unfold runLineLoop
      match hp : parse_operation hd.data with
      | none => exact ⟨_, rfl⟩
      | some (r, none) => exact ⟨e, he⟩
      | some (r, some op) => exact ⟨e, by rw [he]⟩

/-- Witness for C9: `return` alone fails to parse, and a program containing
`call Sys.init 0` makes the line loop abort. -/
theorem vm_line_parse_rejects_witness :
    parse_operation (String.data ("return")) = none ∧
    (∃ e, runLineLoop ["push constant 7", "call Sys.init 0"] = .error e) := by
  have h1 := vm_line_parse_rejects_call_and_return [] [] (by simp)
  have h2 := vm_line_parse_rejects_call_and_return []
    (' ' :: ("Sys.init 0").data) (by simp)
  refine ⟨h1.2.1, ?_⟩
  exact h2.2.2 ["push constant 7", "call Sys.init 0"] "call Sys.init 0"
    (by simp) (Or.inl rfl)

end Vm

/-! ## Jack AST (src/compiler/src/ast/: expression.rs, variables.rs,
statement.rs, subroutine.rs, ast.rs) -/

namespace Jack

/-- `KeywordConstant` from expression.rs (constructors suffixed with `C`:
`true`/`false` clash with Lean's `Bool` literals). -/
inductive KeywordConstant
  | trueC
  | falseC
  | nullC
  | thisC
deriving DecidableEq, Repr

/-- `BinaryOp` from expression.rs. -/
inductive BinaryOp
  | plus | minus | mult | div | and | or | lt | gt | eq
deriving DecidableEq, Repr

/-- `UnaryOp` from expression.rs. -/
inductive UnaryOp
  | minus
  | not
deriving DecidableEq, Repr

/-- `Constant` from expression.rs (`Int(i32)` becomes `Int`; `String`
renamed `str`). -/
inductive Constant
  | int (v : Int)
  | str (s : String)
  | keyword (k : KeywordConstant)
deriving DecidableEq, Repr

mutual

/-- `Expr` from expression.rs. -/
inductive Expr
  | constant (c : Constant)
  | varRef (v : VariableRef)
  | unaryExpr (op : UnaryOp) (e : Expr)
  | binaryExpr (lhs : Expr) (op : BinaryOp) (rhs : Expr)
  | bracketedExpr (e : Expr)
  | call (c : SubroutineCall)

/-- `VariableRef` from variables.rs: `{ name, index: Option<Box<Expr>> }`. -/
inductive VariableRef
  | mk (name : String) (index : Option Expr)

/-- `SubroutineCall` from statement.rs:
`{ target_name, subroutine_name, parameters }`. -/
inductive SubroutineCall
  | mk (target_name : Option String) (subroutine_name : String)
      (parameters : List Expr)

end

/-- `VariableRef::get_name`. -/
def VariableRef.name : VariableRef → String
  | .mk n _ => n

/-- `VariableRef::get_index`. -/
def VariableRef.index : VariableRef → Option Expr
  | .mk _ i => i

/-- `SubroutineCall::get_target`. -/
def SubroutineCall.target_name : SubroutineCall → Option String
  | .mk t _ _ => t

/-- `SubroutineCall::get_name`. -/
def SubroutineCall.subroutine_name : SubroutineCall → String
  | .mk _ n _ => n

/-- `SubroutineCall::get_parameters`. -/
def SubroutineCall.parameters : SubroutineCall → List Expr
  | .mk _ _ p => p

/-- `SubroutineCall::name_as_string`: `<target>.<name>` or plain `<name>`. -/
def SubroutineCall.name_as_string (c : SubroutineCall) : String :=
  ((c.target_name.map (fun t => t ++ ".")).getD "") ++ c.subroutine_name

/-- `VariableType` from variables.rs. -/
inductive VariableType
  | array
  | int
  | char
  | boolean
  | className (name : String)
deriving DecidableEq, Repr

/-- The `format!("{:?}", ..)` (Rust `Debug`) rendering of a `VariableType`,
used as the type string stored in the symbol table. -/
def VariableType.debugFormat : VariableType → String
  | .array => "Array"
  | .int => "Int"
  | .char => "Char"
  | .boolean => "Boolean"
  | .className n => "ClassName(\"" ++ n ++ "\")"

/-- `Variable` from variables.rs. -/
structure Variable where
  identifier : String
  var_type : VariableType
deriving DecidableEq, Repr

/-- `Statement` from statement.rs, with the `LetDetails`, `WhileDetails`,
`IfDetails` and `VarDeclDetails` payload structs flattened into constructor
fields (`Let{identifier, expression}`, `While{condition, body}`,
`If{condition, if_body, else_body}`, `VarDecl{variables}`). -/
inductive Statement
  | letStmt (identifier : VariableRef) (expression : Expr)
  | whileStmt (condition : Expr) (body : List Statement)
  | doStmt (call : SubroutineCall)
  | ifStmt (condition : Expr) (if_body : List Statement)
      (else_body : Option (List Statement))
  | returnStmt (e : Option Expr)
  | varDecl (vars : List Variable)

/-- `SubroutineType` from subroutine.rs. -/
inductive SubroutineType
  | function
  | constructor
  | method
deriving DecidableEq, Repr

/-- `ReturnType` from subroutine.rs. -/
inductive ReturnType
  | int
  | char
  | boolean
  | void
  | className (name : String)
deriving DecidableEq, Repr

/-- `Subroutine` from subroutine.rs. -/
structure Subroutine where
  subroutine_type : SubroutineType
  identifier : String
  parameters : List Variable
  return_type : ReturnType
  statements : List Statement

/-- `ClassVariableVisibility` from ast.rs. -/
inductive ClassVariableVisibility
  | field
  | static
deriving DecidableEq, Repr

/-- `ClassVariable` from ast.rs. -/
structure ClassVariable where
  visibility : ClassVariableVisibility
  var_type : VariableType
  identifier : String
deriving DecidableEq, Repr

/-- `Class` from ast.rs (`variables` is a Lean keyword, hence `vars`). -/
structure Class where
  identifier : String
  subroutines : List Subroutine
  vars : List ClassVariable

end Jack

/-! ## Jack code generator, the variant present under src/
(src/compiler/src/compiler.rs) -/

namespace Jack

/-- `CompilationError` from compiler.rs, plus `unimplemented` standing for
the `todo!()` panics (array access, string constants, `this`). -/
inductive CompilationError
  | missingVariable (var_name : String)
  | unimplemented
deriving DecidableEq, Repr

/-- `CompilationContext` from compiler.rs. -/
structure CompilationContext where
  symbol_table : SymbolTable
  class_name : String
  subroutine_name : String
  while_count : Nat
  if_count : Nat

/-- `CompilationContext::new`. -/
def CompilationContext.new (class_name : String) : CompilationContext :=
  ⟨SymbolTable.new, class_name, "", 0, 0⟩

/-- `CompilationContext::next_while_label`: returns the label and the
incremented context. -/
def CompilationContext.next_while_label (ctx : CompilationContext) :
    String × CompilationContext :=
  (ctx.subroutine_name ++ ".while." ++ toString ctx.while_count,
   { ctx with while_count := ctx.while_count + 1 })

/-- `CompilationContext::next_if_label`. -/
def CompilationContext.next_if_label (ctx : CompilationContext) :
    String × CompilationContext :=
  (ctx.subroutine_name ++ ".if." ++ toString ctx.if_count,
   { ctx with if_count := ctx.if_count + 1 })

/-- The inline `match variable.scope()` mapping in compiler.rs
(`Field → "this"` etc.). -/
def scopeSegment : Scope → String
  | .field => "this"
  | .static => "static"
  | .argument => "argument"
  | .localVar => "local"

/-- The opcode for a binary operator (the `match op` in the
`Expr::BinaryExpr` branch of `compile_expression`). -/
def binaryOpInstr : BinaryOp → String
  | .plus => "add"
  | .minus => "sub"
  | .mult => "call Math.multiply 2"
  | .div => "call Math.divide 2"
  | .and => "and"
  | .or => "or"
  | .lt => "lt"
  | .gt => "gt"
  | .eq => "eq"

mutual

/-- `compile_expression` from compiler.rs.  The context is read-only here
(the Rust code only calls `find_variable`), so only the line list comes
back; the `todo!()` branches surface as `unimplemented`. -/
def compile_expression (e : Expr) (ctx : CompilationContext) :
    Except CompilationError (List String) :=
  match e with
  | .constant (.int num_val) => .ok ["push constant " ++ toString num_val]
  | .constant (.str _) => .error .unimplemented
  | .constant (.keyword k) =>
    match k with
    | .trueC => .ok ["push constant 1", "neg"]
    | .falseC => .ok ["push constant 0"]
    | .nullC => .ok ["push constant 0"]
    | .thisC => .error .unimplemented
  | .varRef (.mk name index) =>
    match index with
    | some _ => .error .unimplemented
    | none =>
      match ctx.symbol_table.find_variable name with
      | none => .error (.missingVariable name)
      | some var => .ok ["push " ++ scopeSegment var.scope ++ " " ++ toString var.index]
  | .unaryExpr op e => do
    let inner ← compile_expression e ctx
    let operator := match op with
      | .minus => "neg"
      | .not => "not"
    .ok (inner ++ [operator])
  | .binaryExpr lhs op rhs => do
    let l ← compile_expression lhs ctx
    let r ← compile_expression rhs ctx
    .ok (l ++ r ++ [binaryOpInstr op])
  | .bracketedExpr e => compile_expression e ctx
  | .call (.mk target_name subroutine_name parameters) => do
    let args ← compile_expression_list parameters ctx
    .ok (args ++ ["call " ++
      SubroutineCall.name_as_string (.mk target_name subroutine_name parameters)
      ++ " " ++ toString parameters.length])

/-- The `for parameter in call.get_parameters()` loops of compiler.rs. -/
def compile_expression_list (es : List Expr) (ctx : CompilationContext) :
    Except CompilationError (List String) :=
  match es with
  | [] => .ok []
  | e :: rest => do
    let first ← compile_expression e ctx
    let others ← compile_expression_list rest ctx
    .ok (first ++ others)

end

mutual

/-- `compile_statement` from compiler.rs: returns the emitted lines and the
updated context (label counters). -/
def compile_statement (s : Statement) (ctx : CompilationContext) :
    Except CompilationError (List String × CompilationContext) :=
  match s with
  | .letStmt identifier expression => do
    let e ← compile_expression expression ctx
    match identifier.index with
    | some _ => .error .unimplemented
    | none =>
      match ctx.symbol_table.find_variable identifier.name with
      | none => .error (.missingVariable identifier.name)
      | some var =>
        .ok (e ++ ["pop " ++ scopeSegment var.scope ++ " " ++ toString var.index], ctx)
  | .whileStmt condition body =>
    let labelCtx := ctx.next_while_label
    do
      let cond ← compile_expression condition labelCtx.2
      let bodyOut ← compile_statement_list body labelCtx.2
      .ok (["label " ++ labelCtx.1 ++ ".condition"] ++ cond ++
        ["if-goto " ++ labelCtx.1 ++ ".while_body",
         "goto " ++ labelCtx.1 ++ ".while_end",
         "label " ++ labelCtx.1 ++ ".while_body"] ++ bodyOut.1 ++
        ["goto " ++ labelCtx.1 ++ ".condition",
         "label " ++ labelCtx.1 ++ ".while_end"], bodyOut.2)
  | .doStmt c => do
    let args ← compile_expression_list c.parameters ctx
    .ok (args ++ ["call " ++ c.name_as_string ++ " " ++
      toString c.parameters.length, "pop temp 0"], ctx)
  | .ifStmt condition if_body else_body =>
    let labelCtx := ctx.next_if_label
    do
      let cond ← compile_expression condition labelCtx.2
      let elseOut ← match else_body with
        | some els => compile_statement_list els labelCtx.2
        | none => pure ([], labelCtx.2)
      let ifOut ← compile_statement_list if_body elseOut.2
      .ok (cond ++ ["if-goto " ++ labelCtx.1 ++ ".if_body"] ++ elseOut.1 ++
        ["goto " ++ labelCtx.1 ++ ".if_end",
         "label " ++ labelCtx.1 ++ ".if_body"] ++ ifOut.1 ++
        ["label " ++ labelCtx.1 ++ ".if_end"], ifOut.2)
  | .returnStmt (some expr) => do
    let v ← compile_expression expr ctx
    .ok (v ++ ["return"], ctx)
  | .returnStmt none => .ok (["push constant 0", "return"], ctx)
  | .varDecl _ => .ok ([], ctx)

/-- The statement loops of compiler.rs (subroutine body, while body,
if/else bodies). -/
def compile_statement_list (ss : List Statement) (ctx : CompilationContext) :
    Except CompilationError (List String × CompilationContext) :=
  match ss with
  | [] => .ok ([], ctx)
  | s :: rest => do
    let first ← compile_statement s ctx
    let others ← compile_statement_list rest first.2
    .ok (first.1 ++ others.1, others.2)

end

mutual

/-- `find_var_decl_in_statement_tree` from compiler.rs. -/
def find_var_decl_in_statement_tree (s : Statement)
    (symbol_table : SymbolTable) : SymbolTable :=
  match s with
  | .letStmt _ _ => symbol_table
  | .whileStmt _ body => find_var_decl_in_statement_list body symbol_table
  | .doStmt _ => symbol_table
  | .ifStmt _ if_body else_body =>
    let st1 := find_var_decl_in_statement_list if_body symbol_table
    (match else_body with
     | some els => find_var_decl_in_statement_list els st1
     | none => st1)
  | .returnStmt _ => symbol_table
  | .varDecl vars =>
    vars.foldl
      (fun st var => st.add_local var.identifier var.var_type.debugFormat)
      symbol_table

/-- The recursive body loops of `find_var_decl_in_statement_tree`. -/
def find_var_decl_in_statement_list (ss : List Statement)
    (symbol_table : SymbolTable) : SymbolTable :=
  match ss with
  | [] => symbol_table
  | s :: rest =>
    find_var_decl_in_statement_list rest
      (find_var_decl_in_statement_tree s symbol_table)

end

/-- `compile_subroutines` from compiler.rs: register the parameters as
arguments, pre-scan for `var` declarations, emit the `function` line with
the local count, then the statements. -/
def compile_subroutines (subroutine : Subroutine)
    (ctx : CompilationContext) :
    Except CompilationError (List String × CompilationContext) :=
  let st1 := subroutine.parameters.foldl
    (fun st p => st.add_argument p.identifier p.var_type.debugFormat)
    ctx.symbol_table
  let st2 := find_var_decl_in_statement_list subroutine.statements st1
  let ctx1 := { ctx with symbol_table := st2 }
  let num_args := ctx1.symbol_table.count_locals
  do
    let body ← compile_statement_list subroutine.statements ctx1
    .ok (["function " ++ ctx1.class_name ++ "." ++ subroutine.identifier ++
      " " ++ toString num_args] ++ body.1, body.2)

/-- The per-subroutine loop of `compile_class`: create a scope, set the
subroutine name, compile, pop the scope. -/
def compile_class_loop (subs : List Subroutine)
    (ctx : CompilationContext) : Except CompilationError (List String) :=
  match subs with
  | [] => .ok []
  | sub :: rest => do
    let ctx1 := { ctx with
      symbol_table := ctx.symbol_table.create_scope,
      subroutine_name := sub.identifier }
    let r ← compile_subroutines sub ctx1
    let ctx3 := { r.2 with symbol_table := r.2.symbol_table.pop_scope }
    let out ← compile_class_loop rest ctx3
    .ok (r.1 ++ out)

/-- `compile_class` from compiler.rs. -/
def compile_class (c : Class) : Except CompilationError (List String) :=
  compile_class_loop c.subroutines (CompilationContext.new c.identifier)

end Jack

/-- Validation against compiler.rs `test_compile_function`. -/
example :
    Jack.compile_class ⟨"Main",
      [⟨.function, "main", [], .void,
        [.doStmt (.mk (some "Output") "printInt" [.constant (.int 3)]),
         .returnStmt none]⟩], []⟩ =
    .ok ["function Main.main 0", "push constant 3",
      "call Output.printInt 1", "pop temp 0", "push constant 0",
      "return"] := by rfl

/-- Validation against compiler.rs `compile_let`. -/
example :
    Jack.compile_class ⟨"Main",
      [⟨.function, "main", [], .void,
        [.varDecl [⟨"value", .int⟩],
         .letStmt (.mk "value" none) (.constant (.int 3)),
         .returnStmt none]⟩], []⟩ =
    .ok ["function Main.main 1", "push constant 3", "pop local 0",
      "push constant 0", "return"] := by rfl

/-- Validation against compiler.rs `compile_while_loop`. -/
example :
    Jack.compile_class ⟨"Main",
      [⟨.function, "main", [], .void,
        [.whileStmt (.constant (.keyword .trueC))
          [.doStmt (.mk (some "Output") "printInt" [.constant (.int 2)])],
         .returnStmt none]⟩], []⟩ =
    .ok ["function Main.main 0", "label main.while.0.condition",
      "push constant 1", "neg", "if-goto main.while.0.while_body",
      "goto main.while.0.while_end", "label main.while.0.while_body",
      "push constant 2", "call Output.printInt 1", "pop temp 0",
      "goto main.while.0.condition", "label main.while.0.while_end",
      "push constant 0", "return"] := by rfl

/-- Validation against compiler.rs `compile_if_statement`. -/
example :
    Jack.compile_class ⟨"Main",
      [⟨.function, "main", [], .void,
        [.ifStmt (.constant (.keyword .trueC))
          [.doStmt (.mk (some "Output") "printInt" [.constant (.int 2)])]
          (some [.doStmt (.mk (some "Output") "printInt"
            [.constant (.int 3)])]),
         .returnStmt none]⟩], []⟩ =
    .ok ["function Main.main 0", "push constant 1", "neg",
      "if-goto main.if.0.if_body", "push constant 3",
      "call Output.printInt 1", "pop temp 0", "goto main.if.0.if_end",
      "label main.if.0.if_body", "push constant 2",
      "call Output.printInt 1", "pop temp 0", "label main.if.0.if_end",
      "push constant 0", "return"] := by rfl

/-- Validation against compiler.rs `compile_function_with_args`. -/
example :
    Jack.compile_class ⟨"Main",
      [⟨.function, "main", [⟨"first", .int⟩, ⟨"second", .int⟩], .int,
        [.returnStmt (some (.varRef (.mk "second" none)))]⟩], []⟩ =
    .ok ["function Main.main 0", "push argument 1", "return"] := by rfl

/-! ## Jack expression parser
(src/compiler/src/parser/expression.rs, parse_utils.rs), modelled with a
fuel parameter for the recursion (any sufficiently large fuel reproduces the
nom behaviour; `cut` is modelled as plain failure, which only matters for
malformed inputs). -/

namespace Jack

/-- nom `char`: match one literal character. -/
def charTok (c : Char) (i : List Char) : Option (List Char) :=
  match i with
  | x :: rest => if x = c then some rest else none
  | [] => none

/-- Split the input before the first occurrence of `pat`
(nom `take_until`). -/
def splitAtSub (pat : List Char) : List Char → Option (List Char × List Char)
  | [] => if pat.isPrefixOf [] then some ([], []) else none
  | c :: rest =>
    if pat.isPrefixOf (c :: rest) then some ([], c :: rest)
    else (splitAtSub pat rest).map
      (fun (r : List Char × List Char) => (c :: r.1, r.2))

/-- `multiline_comment` from parse_utils.rs: `/*`, anything, `*/`. -/
def multiline_comment (i : List Char) : Option (List Char) := do
  let i1 ← Vm.tag ("/*").data i
  let r ← splitAtSub ("*/").data i1
  Vm.tag ("*/").data r.2

/-- `comment` from parse_utils.rs: `//`, at least one non-newline character
(`is_not("\n")`), then at least one whitespace character. -/
def lineComment (i : List Char) : Option (List Char) := do
  let i1 ← Vm.tag ("//").data i
  let run := i1.takeWhile (fun c => c ≠ '\n')
  if run.isEmpty then none
  else
    match i1.drop run.length with
    | c :: rest =>
      if Vm.isMultiSpace c then some ((c :: rest).dropWhile Vm.isMultiSpace)
      else none
    | [] => none

/-- `whitespace` from parse_utils.rs (`multispace1`). -/
def whitespaceTok (i : List Char) : Option (List Char) :=
  match i with
  | c :: _ => if Vm.isMultiSpace c then some (i.dropWhile Vm.isMultiSpace)
    else none
  | [] => none

/-- `all_whitespace0` from parse_utils.rs: any number of comments and
whitespace runs. -/
def all_whitespace0 : Nat → List Char → List Char
  | 0, i => i
  | fuel + 1, i =>
    match (multiline_comment i).orElse fun _ =>
        (lineComment i).orElse fun _ => whitespaceTok i with
    | some r => all_whitespace0 fuel r
    | none => i

/-- `parse_identifier` from parse_utils.rs: `alpha1 | "_"` then
`many0(alphanumeric1 | "_")`. -/
def parse_identifier (i : List Char) : Option (List Char × String) :=
  match i with
  | c :: _ =>
    if c.isAlpha then
      let part1 := i.takeWhile Char.isAlpha
      let i1 := i.drop part1.length
      let part2 := i1.takeWhile (fun c => c.isAlphanum || c = '_')
      some (i1.drop part2.length, String.mk (part1 ++ part2))
    else if c = '_' then
      let i1 := i.drop 1
      let part2 := i1.takeWhile (fun c => c.isAlphanum || c = '_')
      some (i1.drop part2.length, String.mk ('_' :: part2))
    else none
  | [] => none

/-- nom `i32`: optional sign, digits, 32-bit signed range check. -/
def parse_i32 (i : List Char) : Option (List Char × Int) :=
  let signRest : Int × List Char :=
    match i with
    | '-' :: r => (-1, r)
    | '+' :: r => (1, r)
    | _ => (1, i)
  let ds := signRest.2.takeWhile Char.isDigit
  match charsToNat? ds with
  | none => none
  | some v =>
    let n : Int := signRest.1 * Int.ofNat v
    if -2147483648 ≤ n ∧ n ≤ 2147483647 then
      some (signRest.2.drop ds.length, n)
    else none

/-- `parse_constant` from expression.rs: string, integer or keyword
constant. -/
def parse_constant (i : List Char) : Option (List Char × Expr) :=
  (do
    let i1 ← charTok '"' i
    let s := i1.takeWhile (fun c => c ≠ '"')
    let i2 ← charTok '"' (i1.drop s.length)
    some (i2, Expr.constant (.str (String.mk s)))).orElse fun _ =>
  ((parse_i32 i).map
    (fun (r : List Char × Int) => (r.1, Expr.constant (.int r.2)))).orElse
    fun _ =>
  (match Vm.tag ("false").data i with
   | some r => some (r, Expr.constant (.keyword .falseC))
   | none =>
   match Vm.tag ("true").data i with
   | some r => some (r, Expr.constant (.keyword .trueC))
   | none =>
   match Vm.tag ("null").data i with
   | some r => some (r, Expr.constant (.keyword .nullC))
   | none =>
   match Vm.tag ("this").data i with
   | some r => some (r, Expr.constant (.keyword .thisC))
   | none => none)

/-- `parse_binary_operator` from expression.rs (alternatives in source
order). -/
def parse_binary_operator (i : List Char) :
    Option (List Char × BinaryOp) :=
  match i with
  | c :: rest =>
    if c = '<' then some (rest, .lt)
    else if c = '>' then some (rest, .gt)
    else if c = '+' then some (rest, .plus)
    else if c = '-' then some (rest, .minus)
    else if c = '*' then some (rest, .mult)
    else if c = '/' then some (rest, .div)
    else if c = '&' then some (rest, .and)
    else if c = '|' then some (rest, .or)
    else if c = '=' then some (rest, .eq)
    else none
  | [] => none

mutual

/-- `parse_expression` from expression.rs (alternatives in source order). -/
def parse_expression : Nat → List Char → Option (List Char × Expr)
  | 0, _ => none
  | fuel + 1, i =>
    (parse_binary_operation fuel i).orElse fun _ =>
    (parse_brackets fuel i).orElse fun _ =>
    (parse_unary_op fuel i).orElse fun _ =>
    ((parse_subroutine_call fuel i).map
      (fun r => (r.1, Expr.call r.2))).orElse fun _ =>
    (parse_constant i).orElse fun _ =>
    (parse_indexed_identifier fuel i).orElse fun _ =>
    (parse_identifier i).map (fun r => (r.1, Expr.varRef (.mk r.2 none)))

/-- `parse_binary_operation` from expression.rs: one sub-expression, one
operator, one (recursive) expression — the right-leaning shape. -/
def parse_binary_operation : Nat → List Char → Option (List Char × Expr)
  | 0, _ => none
  | fuel + 1, i => do
    let lhs ← parse_sub_expression fuel i
    let i2 := all_whitespace0 lhs.1.length lhs.1
    let op ← parse_binary_operator i2
    let i3 := all_whitespace0 op.1.length op.1
    let rhs ← parse_expression fuel i3
    some (rhs.1, Expr.binaryExpr lhs.2 op.2 rhs.2)

/-- `parse_sub_expression` from expression.rs. -/
def parse_sub_expression : Nat → List Char → Option (List Char × Expr)
  | 0, _ => none
  | fuel + 1, i =>
    (parse_brackets fuel i).orElse fun _ =>
    (parse_unary_op fuel i).orElse fun _ =>
    ((parse_subroutine_call fuel i).map
      (fun r => (r.1, Expr.call r.2))).orElse fun _ =>
    (parse_constant i).orElse fun _ =>
    (parse_indexed_identifier fuel i).orElse fun _ =>
    (parse_identifier i).map (fun r => (r.1, Expr.varRef (.mk r.2 none)))

/-- `parse_brackets` from expression.rs. -/
def parse_brackets : Nat → List Char → Option (List Char × Expr)
  | 0, _ => none
  | fuel + 1, i => do
    let i1 ← charTok '(' i
    let e ← parse_expression fuel i1
    let i2 ← charTok ')' e.1
    some (i2, Expr.bracketedExpr e.2)

/-- `parse_unary_op` from expression.rs. -/
def parse_unary_op : Nat → List Char → Option (List Char × Expr)
  | 0, _ => none
  | fuel + 1, i => do
    let opRest ←
      match i with
      | '-' :: r => some (UnaryOp.minus, r)
      | '~' :: r => some (UnaryOp.not, r)
      | _ => none
    let e ← parse_expression fuel opRest.2
    some (e.1, Expr.unaryExpr opRest.1 e.2)

/-- `parse_indexed_identifier` from expression.rs:
`name [ expr ]` with whitespace around the brackets. -/
def parse_indexed_identifier : Nat → List Char → Option (List Char × Expr)
  | 0, _ => none
  | fuel + 1, i => do
    let name ← parse_identifier i
    let i1 := all_whitespace0 name.1.length name.1
    let i2 ← charTok '[' i1
    let i3 := all_whitespace0 i2.length i2
    let idx ← parse_expression fuel i3
    let i4 := all_whitespace0 idx.1.length idx.1
    let i5 ← charTok ']' i4
    let i6 := all_whitespace0 i5.length i5
    some (i6, Expr.varRef (.mk name.2 (some idx.2)))

/-- `parse_parameter_list` from parse_utils.rs:
`separated_list0(',', delimited(ws, expr, ws))`. -/
def parse_parameter_list : Nat → List Char → Option (List Char × List Expr)
  | 0, _ => none
  | fuel + 1, i =>
    let i1 := all_whitespace0 i.length i
    match parse_expression fuel i1 with
    | none => some (i, [])
    | some e =>
      let i2 := all_whitespace0 e.1.length e.1
      match parse_parameter_list_rest fuel i2 with
      | some r => some (r.1, e.2 :: r.2)
      | none => some (i2, [e.2])

/-- The `sep … elem` repetition of `separated_list0` (a failing element
after a comma ends the list with the comma unconsumed). -/
def parse_parameter_list_rest : Nat → List Char →
    Option (List Char × List Expr)
  | 0, _ => none
  | fuel + 1, i =>
    match charTok ',' i with
    | none => some (i, [])
    | some i1 =>
      let i2 := all_whitespace0 i1.length i1
      match parse_expression fuel i2 with
      | none => some (i, [])
      | some e =>
        let i3 := all_whitespace0 e.1.length e.1
        match parse_parameter_list_rest fuel i3 with
        | some r => some (r.1, e.2 :: r.2)
        | none => some (i3, [e.2])

/-- `parse_function_call` from parse_utils.rs: `name(args)`. -/
def parse_function_call : Nat → List Char →
    Option (List Char × SubroutineCall)
  | 0, _ => none
  | fuel + 1, i => do
    let name ← parse_identifier i
    let i1 ← charTok '(' name.1
    let ps ← parse_parameter_list fuel i1
    let i2 ← charTok ')' ps.1
    some (i2, .mk none name.2 ps.2)

/-- `parse_method_call` from parse_utils.rs: `target.name(args)`. -/
def parse_method_call : Nat → List Char →
    Option (List Char × SubroutineCall)
  | 0, _ => none
  | fuel + 1, i => do
    let target ← parse_identifier i
    let i1 ← charTok '.' target.1
    let name ← parse_identifier i1
    let i2 ← charTok '(' name.1
    let ps ← parse_parameter_list fuel i2
    let i3 ← charTok ')' ps.1
    some (i3, .mk (some target.2) name.2 ps.2)

/-- `parse_subroutine_call` from parse_utils.rs. -/
def parse_subroutine_call : Nat → List Char →
    Option (List Char × SubroutineCall)
  | 0, _ => none
  | fuel + 1, i =>
    (parse_function_call fuel i).orElse fun _ => parse_method_call fuel i

end

/-- Top-level expression parse with sufficient fuel. -/
def parseExpressionTop (s : String) : Option (List Char × Expr) :=
  parse_expression (s.data.length + 1) s.data

end Jack

/-- Validation against the expression.rs `test_expression` cases. -/
example :
    Jack.parseExpressionTop "1 + 2 * 3" =
      some ([], .binaryExpr (.constant (.int 1)) .plus
        (.binaryExpr (.constant (.int 2)) .mult (.constant (.int 3)))) ∧
    Jack.parseExpressionTop "i < 3" =
      some ([], .binaryExpr (.varRef (.mk "i" none)) .lt
        (.constant (.int 3))) ∧
    Jack.parseExpressionTop "~(b | c)" =
      some ([], .unaryExpr .not (.bracketedExpr
        (.binaryExpr (.varRef (.mk "b" none)) .or
          (.varRef (.mk "c" none))))) := by
  refine ⟨rfl, rfl, rfl⟩

/-! ### C3: two-operator expressions -/

/-- `Except.ok` followed by bind reduces. -/
theorem except_bind_ok {ε α β : Type} (a : α) (f : α → Except ε β) :
    ((Except.ok a : Except ε α) >>= f) = f a := rfl

namespace Jack

/-- C3 counterexample: `1 + 2 * 3` parses to the right-leaning tree
`1 + (2 * 3)`; the generator emits `push 1; push 2; push 3; multiply; add`,
which is NOT the left-associative reference sequence
`push 1; push 2; add; push 3; multiply` claimed to be equal. -/
theorem two_op_left_associative_counterexample :
    parseExpressionTop "1 + 2 * 3" =
      some ([], .binaryExpr (.constant (.int 1)) .plus
        (.binaryExpr (.constant (.int 2)) .mult (.constant (.int 3)))) ∧
    compile_expression
      (.binaryExpr (.constant (.int 1)) .plus
        (.binaryExpr (.constant (.int 2)) .mult (.constant (.int 3))))
      (CompilationContext.new "Main") =
      .ok ["push constant 1", "push constant 2", "push constant 3",
        "call Math.multiply 2", "add"] ∧
    compile_expression
      (.binaryExpr (.binaryExpr (.constant (.int 1)) .plus
        (.constant (.int 2))) .mult (.constant (.int 3)))
      (CompilationContext.new "Main") =
      .ok ["push constant 1", "push constant 2", "add", "push constant 3",
        "call Math.multiply 2"] ∧
    (["push constant 1", "push constant 2", "push constant 3",
      "call Math.multiply 2", "add"] : List String) ≠
    ["push constant 1", "push constant 2", "add", "push constant 3",
      "call Math.multiply 2"] :=
  ⟨rfl, rfl, rfl, by decide⟩

/-- C3 as amended: the parser's right-leaning tree for `a op1 b op2 c`
compiles to `eval(a); eval(b); eval(c); op2; op1` — right-associative
grouping `a op1 (b op2 c)` — while the left-associative reference
`(a op1 b) op2 c` compiles to `eval(a); eval(b); op1; eval(c); op2`; the
parse shape is witnessed on `1 + 2 * 3`. -/
theorem two_op_compiles_right_associative (a b c : Expr)
    (op1 op2 : BinaryOp) (ctx : CompilationContext) (la lb lc : List String)
    (ha : compile_expression a ctx = .ok la)
    (hb : compile_expression b ctx = .ok lb)
    (hc : compile_expression c ctx = .ok lc) :
    compile_expression (.binaryExpr a op1 (.binaryExpr b op2 c)) ctx =
      .ok (la ++ lb ++ lc ++ [binaryOpInstr op2] ++ [binaryOpInstr op1]) ∧
    compile_expression (.binaryExpr (.binaryExpr a op1 b) op2 c) ctx =
      .ok (la ++ lb ++ [binaryOpInstr op1] ++ lc ++ [binaryOpInstr op2]) ∧
    parseExpressionTop "1 + 2 * 3" =
      some ([], .binaryExpr (.constant (.int 1)) .plus
        (.binaryExpr (.constant (.int 2)) .mult (.constant (.int 3)))) := by
  refine ⟨?_, ?_, rfl⟩
  · show (do
      let l ← compile_expression a ctx
      let r ← compile_expression (.binaryExpr b op2 c) ctx
      Except.ok (l ++ r ++ [binaryOpInstr op1])) = _
    have hr : compile_expression (.binaryExpr b op2 c) ctx =
        .ok (lb ++ lc ++ [binaryOpInstr op2]) := by
      show (do
        let l ← compile_expression b ctx
        let r ← compile_expression c ctx
        Except.ok (l ++ r ++ [binaryOpInstr op2])) = _
      rw [hb, except_bind_ok, hc, except_bind_ok]
    rw [ha, except_bind_ok, hr, except_bind_ok]
    try simp [List.append_assoc]
  · show (do
      let l ← compile_expression (.binaryExpr a op1 b) ctx
      let r ← compile_expression c ctx
      Except.ok (l ++ r ++ [binaryOpInstr op2])) = _
    have hl : compile_expression (.binaryExpr a op1 b) ctx =
        .ok (la ++ lb ++ [binaryOpInstr op1]) := by
      show (do
        let l ← compile_expression a ctx
        let r ← compile_expression b ctx
        Except.ok (l ++ r ++ [binaryOpInstr op1])) = _
      rw [ha, except_bind_ok, hb, except_bind_ok]
    rw [hl, except_bind_ok, hc, except_bind_ok]
    try simp [List.append_assoc]

/-- Witness for the amended C3 at `1 + 2 * 3`. -/
theorem two_op_compiles_right_associative_witness :
    compile_expression
      (.binaryExpr (.constant (.int 1)) .plus
        (.binaryExpr (.constant (.int 2)) .mult (.constant (.int 3))))
      (CompilationContext.new "Main") =
      .ok (["push constant 1"] ++ ["push constant 2"] ++
        ["push constant 3"] ++ [binaryOpInstr .mult] ++
        [binaryOpInstr .plus]) :=
  (two_op_compiles_right_associative (.constant (.int 1))
    (.constant (.int 2)) (.constant (.int 3)) .plus .mult
    (CompilationContext.new "Main") _ _ _ rfl rfl rfl).1

end Jack

/-! ### C4: function lines enumerate the subroutines -/

namespace Jack

/-- Does a generated line start with `function `? -/
def isFunctionLine (l : String) : Bool :=
  ("function ").data.isPrefixOf l.data

mutual

/-- Total number of variables declared by `var` statements in a statement,
recursively including `while` and `if`/`else` bodies. -/
def varDeclCount : Statement → Nat
  | .letStmt _ _ => 0
  | .whileStmt _ body => varDeclCountList body
  | .doStmt _ => 0
  | .ifStmt _ if_body else_body =>
    varDeclCountList if_body +
      (match else_body with
       | some els => varDeclCountList els
       | none => 0)
  | .returnStmt _ => 0
  | .varDecl vs => vs.length

/-- `varDeclCount` summed over a statement list. -/
def varDeclCountList : List Statement → Nat
  | [] => 0
  | s :: rest => varDeclCount s + varDeclCountList rest

end

theorem count_locals_add_local (st : SymbolTable) (n t : String) :
    (st.add_local n t).count_locals = st.count_locals + 1 := by
  simp [SymbolTable.add_local, SymbolTable.count_locals, List.filter_append]

theorem count_locals_add_argument (st : SymbolTable) (n t : String) :
    (st.add_argument n t).count_locals = st.count_locals := by
  simp [SymbolTable.add_argument, SymbolTable.count_locals,
    List.filter_append]

theorem scopes_add_local (st : SymbolTable) (n t : String) :
    (st.add_local n t).scopes = st.scopes := rfl

theorem scopes_add_argument (st : SymbolTable) (n t : String) :
    (st.add_argument n t).scopes = st.scopes := rfl

theorem foldl_add_local_spec (vs : List Variable) (st : SymbolTable) :
    (vs.foldl
      (fun st var => st.add_local var.identifier var.var_type.debugFormat)
      st).count_locals = st.count_locals + vs.length ∧
    (vs.foldl
      (fun st var => st.add_local var.identifier var.var_type.debugFormat)
      st).scopes = st.scopes := by
  induction vs generalizing st with
  | nil => simp
  | cons v vs ih =>
    have h := ih (st.add_local v.identifier v.var_type.debugFormat)
    simp only [List.foldl_cons]
    refine ⟨?_, ?_⟩
    · rw [h.1, count_locals_add_local]
      simp only [List.length_cons]
      omega
    · rw [h.2, scopes_add_local]

theorem foldl_add_argument_spec (vs : List Variable) (st : SymbolTable) :
    (vs.foldl
      (fun st p => st.add_argument p.identifier p.var_type.debugFormat)
      st).count_locals = st.count_locals ∧
    (vs.foldl
      (fun st p => st.add_argument p.identifier p.var_type.debugFormat)
      st).scopes = st.scopes := by
  induction vs generalizing st with
  | nil => simp
  | cons v vs ih =>
    have h := ih (st.add_argument v.identifier v.var_type.debugFormat)
    simp only [List.foldl_cons]
    exact ⟨by rw [h.1, count_locals_add_argument],
      by rw [h.2, scopes_add_argument]⟩

mutual

/-- The pre-pass adds exactly the recursively declared locals and keeps the
scope marks. -/
theorem find_var_decl_spec (s : Statement) (st : SymbolTable) :
    (find_var_decl_in_statement_tree s st).count_locals =
      st.count_locals + varDeclCount s ∧
    (find_var_decl_in_statement_tree s st).scopes = st.scopes :=
  match s with
  | .letStmt _ _ => by simp [find_var_decl_in_statement_tree, varDeclCount]
  | .whileStmt _ body => by
    have h := find_var_decl_list_spec body st
    simpa [find_var_decl_in_statement_tree, varDeclCount] using h
  | .doStmt _ => by simp [find_var_decl_in_statement_tree, varDeclCount]
  | .ifStmt _ if_body else_body => by
    have h1 := find_var_decl_list_spec if_body st
    cases else_body with
    | none =>
      simpa [find_var_decl_in_statement_tree, varDeclCount] using h1
    | some els =>
      have h2 := find_var_decl_list_spec els
        (find_var_decl_in_statement_list if_body st)
      simp only [find_var_decl_in_statement_tree, varDeclCount]
      refine ⟨?_, ?_⟩
      · rw [h2.1, h1.1]
        omega
      · rw [h2.2, h1.2]
  | .returnStmt _ => by simp [find_var_decl_in_statement_tree, varDeclCount]
  | .varDecl vs => by
    have h := foldl_add_local_spec vs st
    simpa [find_var_decl_in_statement_tree, varDeclCount] using h

theorem find_var_decl_list_spec (ss : List Statement) (st : SymbolTable) :
    (find_var_decl_in_statement_list ss st).count_locals =
      st.count_locals + varDeclCountList ss ∧
    (find_var_decl_in_statement_list ss st).scopes = st.scopes :=
  match ss with
  | [] => by simp [find_var_decl_in_statement_list, varDeclCountList]
  | s :: rest => by
    have h1 := find_var_decl_spec s st
    have h2 := find_var_decl_list_spec rest
      (find_var_decl_in_statement_tree s st)
    simp only [find_var_decl_in_statement_list, varDeclCountList]
    refine ⟨?_, ?_⟩
    · rw [h2.1, h1.1]
      omega
    · rw [h2.2, h1.2]

end

end Jack

/-- `Except.error` followed by bind stays an error. -/
theorem except_bind_error {ε α β : Type} (e : ε) (f : α → Except ε β) :
    ((Except.error e : Except ε α) >>= f) = .error e := rfl

namespace Jack

theorem binaryOpInstr_not_function (op : BinaryOp) :
    isFunctionLine (binaryOpInstr op) = false := by
  cases op <;> decide

mutual

/-- No line emitted for an expression starts with `function `. -/
theorem compile_expression_no_function : ∀ (e : Expr)
    (ctx : CompilationContext) (out : List String),
    compile_expression e ctx = .ok out →
    ∀ l ∈ out, isFunctionLine l = false
  | .constant (.int v), ctx, out => by
    intro h l hl
    simp only [compile_expression, Except.ok.injEq] at h
    subst h
    simp only [List.mem_singleton] at hl
    subst hl
    simp [isFunctionLine, String.data_append, List.isPrefixOf]
  | .constant (.str _), ctx, out => by
    intro h
    exact absurd h (by simp [compile_expression])
  | .constant (.keyword k), ctx, out => by
    intro h l hl
    cases k with
    | trueC =>
      simp only [compile_expression, Except.ok.injEq] at h
      subst h
      simp only [List.mem_cons, List.not_mem_nil, or_false] at hl
      rcases hl with rfl | rfl <;> decide
    | falseC =>
      simp only [compile_expression, Except.ok.injEq] at h
      subst h
      simp only [List.mem_cons, List.not_mem_nil, or_false] at hl
      subst hl
      decide
    | nullC =>
      simp only [compile_expression, Except.ok.injEq] at h
      subst h
      simp only [List.mem_cons, List.not_mem_nil, or_false] at hl
      subst hl
      decide
    | thisC => exact absurd h (by simp [compile_expression])
  | .varRef (.mk name index), ctx, out => by
    intro h l hl
    simp only [compile_expression] at h
    cases index with
    | some _ => exact absurd h (by simp)
    | none =>
      cases hf : ctx.symbol_table.find_variable name with
      | none => rw [hf] at h; exact absurd h (by simp)
      | some var =>
        rw [hf] at h
        simp only [Except.ok.injEq] at h
        subst h
        simp only [List.mem_singleton] at hl
        subst hl
        simp [isFunctionLine, String.data_append, List.isPrefixOf]
  | .unaryExpr op e, ctx, out => by
    intro h l hl
    simp only [compile_expression] at h
    cases hE : compile_expression e ctx with
    | error err => rw [hE, except_bind_error] at h; exact absurd h (by simp)
    | ok inner =>
      rw [hE, except_bind_ok] at h
      simp only [Except.ok.injEq] at h
      subst h
      rcases List.mem_append.mp hl with hin | hop
      · exact compile_expression_no_function e ctx inner hE l hin
      · simp only [List.mem_singleton] at hop
        subst hop
        cases op <;> decide
  | .binaryExpr lhs op rhs, ctx, out => by
    intro h l hl
    simp only [compile_expression] at h
    cases hL : compile_expression lhs ctx with
    | error err => rw [hL, except_bind_error] at h; exact absurd h (by simp)
    | ok lout =>
      rw [hL, except_bind_ok] at h
      cases hR : compile_expression rhs ctx with
      | error err =>
        rw [hR, except_bind_error] at h
        exact absurd h (by simp)
      | ok rout =>
        rw [hR, except_bind_ok] at h
        simp only [Except.ok.injEq] at h
        subst h
        rcases List.mem_append.mp hl with hlr | hop
        · rcases List.mem_append.mp hlr with h1 | h2
          · exact compile_expression_no_function lhs ctx lout hL l h1
          · exact compile_expression_no_function rhs ctx rout hR l h2
        · simp only [List.mem_singleton] at hop
          subst hop
          exact binaryOpInstr_not_function op
  | .bracketedExpr e, ctx, out => by
    intro h
    simp only [compile_expression] at h
    exact compile_expression_no_function e ctx out h
  | .call (.mk target name ps), ctx, out => by
    intro h l hl
    simp only [compile_expression] at h
    cases hA : compile_expression_list ps ctx with
    | error err => rw [hA, except_bind_error] at h; exact absurd h (by simp)
    | ok args =>
      rw [hA, except_bind_ok] at h
      simp only [Except.ok.injEq] at h
      subst h
      rcases List.mem_append.mp hl with hin | hcall
      · exact compile_expression_list_no_function ps ctx args hA l hin
      · simp only [List.mem_singleton] at hcall
        subst hcall
        simp [isFunctionLine, String.data_append, List.isPrefixOf]

/-- No line emitted for an expression list starts with `function `. -/
theorem compile_expression_list_no_function : ∀ (es : List Expr)
    (ctx : CompilationContext) (out : List String),
    compile_expression_list es ctx = .ok out →
    ∀ l ∈ out, isFunctionLine l = false
  | [], ctx, out => by
    intro h l hl
    simp only [compile_expression_list, Except.ok.injEq] at h
    subst h
    exact absurd hl (by simp)
  | e :: rest, ctx, out => by
    intro h l hl
    simp only [compile_expression_list] at h
    cases hE : compile_expression e ctx with
    | error err => rw [hE, except_bind_error] at h; exact absurd h (by simp)
    | ok first =>
      rw [hE, except_bind_ok] at h
      cases hR : compile_expression_list rest ctx with
      | error err =>
        rw [hR, except_bind_error] at h
        exact absurd h (by simp)
      | ok others =>
        rw [hR, except_bind_ok] at h
        simp only [Except.ok.injEq] at h
        subst h
        rcases List.mem_append.mp hl with h1 | h2
        · exact compile_expression_no_function e ctx first hE l h1
        · exact compile_expression_list_no_function rest ctx others hR l h2

end

end Jack

namespace Jack

mutual

/-- Compiling a statement preserves the symbol table and names in the
context, and never emits a line starting with `function `. -/
theorem compile_statement_spec : ∀ (s : Statement)
    (ctx : CompilationContext) (r : List String × CompilationContext),
    compile_statement s ctx = .ok r →
    (r.2.symbol_table = ctx.symbol_table ∧
     r.2.class_name = ctx.class_name ∧
     r.2.subroutine_name = ctx.subroutine_name) ∧
    ∀ l ∈ r.1, isFunctionLine l = false
  | .letStmt identifier expression, ctx, r => by
    intro h
    simp only [compile_statement] at h
    cases hE : compile_expression expression ctx with
    | error err => rw [hE, except_bind_error] at h; exact absurd h (by simp)
    | ok e =>
      rw [hE, except_bind_ok] at h
      cases identifier with
      | mk nm idx =>
        simp only [VariableRef.index, VariableRef.name] at h
        cases idx with
        | some _ => exact absurd h (by simp)
        | none =>
          cases hf : ctx.symbol_table.find_variable nm with
          | none => rw [hf] at h; exact absurd h (by simp)
          | some var =>
            rw [hf] at h
            simp only [Except.ok.injEq] at h
            subst h
            refine ⟨⟨rfl, rfl, rfl⟩, ?_⟩
            intro l hl
            rcases List.mem_append.mp hl with h1 | h2
            · exact compile_expression_no_function expression ctx e hE l h1
            · simp only [List.mem_cons, List.not_mem_nil, or_false] at h2
              subst h2
              simp [isFunctionLine, String.data_append, List.isPrefixOf]
  | .whileStmt condition body, ctx, r => by
    intro h
    simp only [compile_statement] at h
    cases hC : compile_expression condition (ctx.next_while_label).2 with
    | error err => rw [hC, except_bind_error] at h; exact absurd h (by simp)
    | ok cond =>
      rw [hC, except_bind_ok] at h
      cases hB : compile_statement_list body (ctx.next_while_label).2 with
      | error err =>
        rw [hB, except_bind_error] at h
        exact absurd h (by simp)
      | ok bodyOut =>
        rw [hB, except_bind_ok] at h
        simp only [Except.ok.injEq] at h
        subst h
        have hpres := (compile_statement_list_spec body
          (ctx.next_while_label).2 bodyOut hB).1
        refine ⟨⟨hpres.1, hpres.2.1, hpres.2.2⟩, ?_⟩
        intro l hl
        simp only [List.cons_append, List.nil_append, List.mem_append,
          List.mem_cons, List.not_mem_nil, or_false, or_assoc] at hl
        rcases hl with hl | hl | hl | hl | hl | hl | hl | hl <;>
          first
          | exact compile_expression_no_function condition
              (ctx.next_while_label).2 cond hC l hl
          | exact (compile_statement_list_spec body
              (ctx.next_while_label).2 bodyOut hB).2 l hl
          | (subst hl
             simp [isFunctionLine, String.data_append, List.isPrefixOf])
  | .doStmt c, ctx, r => by
    intro h
    simp only [compile_statement] at h
    cases hA : compile_expression_list c.parameters ctx with
    | error err => rw [hA, except_bind_error] at h; exact absurd h (by simp)
    | ok args =>
      rw [hA, except_bind_ok] at h
      simp only [Except.ok.injEq] at h
      subst h
      refine ⟨⟨rfl, rfl, rfl⟩, ?_⟩
      intro l hl
      simp only [List.mem_append, List.mem_cons, List.not_mem_nil,
        or_false] at hl
      rcases hl with hl | rfl | rfl
      · exact compile_expression_list_no_function c.parameters ctx args
          hA l hl
      · simp [isFunctionLine, String.data_append, List.isPrefixOf]
      · decide
  | .ifStmt condition if_body else_body, ctx, r => by
    intro h
    cases else_body with
    | none =>
      simp only [compile_statement] at h
      cases hC : compile_expression condition (ctx.next_if_label).2 with
      | error err => rw [hC, except_bind_error] at h; exact absurd h (by simp)
      | ok cond =>
        rw [hC, except_bind_ok, pure_bind] at h
        cases hI : compile_statement_list if_body (ctx.next_if_label).2 with
        | error err =>
          rw [hI, except_bind_error] at h
          exact absurd h (by simp)
        | ok ifOut =>
          rw [hI, except_bind_ok] at h
          simp only [Except.ok.injEq] at h
          subst h
          have hi := compile_statement_list_spec if_body
            (ctx.next_if_label).2 ifOut hI
          refine ⟨⟨hi.1.1, hi.1.2.1, hi.1.2.2⟩, ?_⟩
          intro l hl
          simp only [List.cons_append, List.nil_append, List.append_nil,
            List.mem_append, List.mem_cons, List.not_mem_nil, or_false,
            or_assoc] at hl
          rcases hl with hl | hl | hl | hl | hl | hl <;>
            first
            | exact compile_expression_no_function condition
                (ctx.next_if_label).2 cond hC l hl
            | exact hi.2 l hl
            | (subst hl
               simp [isFunctionLine, String.data_append, List.isPrefixOf])
    | some els =>
      simp only [compile_statement] at h
      cases hC : compile_expression condition (ctx.next_if_label).2 with
      | error err => rw [hC, except_bind_error] at h; exact absurd h (by simp)
      | ok cond =>
        rw [hC, except_bind_ok] at h
        cases hEl : compile_statement_list els (ctx.next_if_label).2 with
        | error err =>
          rw [hEl, except_bind_error] at h
          exact absurd h (by simp)
        | ok elseOut =>
          rw [hEl, except_bind_ok] at h
          cases hI : compile_statement_list if_body elseOut.2 with
          | error err =>
            rw [hI, except_bind_error] at h
            exact absurd h (by simp)
          | ok ifOut =>
            rw [hI, except_bind_ok] at h
            simp only [Except.ok.injEq] at h
            subst h
            have he := compile_statement_list_spec els
              (ctx.next_if_label).2 elseOut hEl
            have hi := compile_statement_list_spec if_body elseOut.2 ifOut hI
            refine ⟨⟨hi.1.1.trans he.1.1, hi.1.2.1.trans he.1.2.1,
              hi.1.2.2.trans he.1.2.2⟩, ?_⟩
            intro l hl
            simp only [List.cons_append, List.nil_append, List.mem_append,
              List.mem_cons, List.not_mem_nil, or_false, or_assoc] at hl
            rcases hl with hl | hl | hl | hl | hl | hl | hl <;>
              first
              | exact compile_expression_no_function condition
                  (ctx.next_if_label).2 cond hC l hl
              | exact he.2 l hl
              | exact hi.2 l hl
              | (subst hl
                 simp [isFunctionLine, String.data_append, List.isPrefixOf])
  | .returnStmt (some expr), ctx, r => by
    intro h
    simp only [compile_statement] at h
    cases hE : compile_expression expr ctx with
    | error err => rw [hE, except_bind_error] at h; exact absurd h (by simp)
    | ok v =>
      rw [hE, except_bind_ok] at h
      simp only [Except.ok.injEq] at h
      subst h
      refine ⟨⟨rfl, rfl, rfl⟩, ?_⟩
      intro l hl
      rcases List.mem_append.mp hl with h1 | h2
      · exact compile_expression_no_function expr ctx v hE l h1
      · simp only [List.mem_cons, List.not_mem_nil, or_false] at h2
        subst h2
        decide
  | .returnStmt none, ctx, r => by
    intro h
    simp only [compile_statement, Except.ok.injEq] at h
    subst h
    refine ⟨⟨rfl, rfl, rfl⟩, ?_⟩
    intro l hl
    simp only [List.mem_cons, List.not_mem_nil, or_false] at hl
    rcases hl with rfl | rfl <;> decide
  | .varDecl vs, ctx, r => by
    intro h
    simp only [compile_statement, Except.ok.injEq] at h
    subst h
    exact ⟨⟨rfl, rfl, rfl⟩, by simp⟩

/-- `compile_statement_spec` for statement lists. -/
theorem compile_statement_list_spec : ∀ (ss : List Statement)
    (ctx : CompilationContext) (r : List String × CompilationContext),
    compile_statement_list ss ctx = .ok r →
    (r.2.symbol_table = ctx.symbol_table ∧
     r.2.class_name = ctx.class_name ∧
     r.2.subroutine_name = ctx.subroutine_name) ∧
    ∀ l ∈ r.1, isFunctionLine l = false
  | [], ctx, r => by
    intro h
    simp only [compile_statement_list, Except.ok.injEq] at h
    subst h
    exact ⟨⟨rfl, rfl, rfl⟩, by simp⟩
  | s :: rest, ctx, r => by
    intro h
    simp only [compile_statement_list] at h
    cases hS : compile_statement s ctx with
    | error err => rw [hS, except_bind_error] at h; exact absurd h (by simp)
    | ok first =>
      rw [hS, except_bind_ok] at h
      cases hR : compile_statement_list rest first.2 with
      | error err =>
        rw [hR, except_bind_error] at h
        exact absurd h (by simp)
      | ok others =>
        rw [hR, except_bind_ok] at h
        simp only [Except.ok.injEq] at h
        subst h
        have h1 := compile_statement_spec s ctx first hS
        have h2 := compile_statement_list_spec rest first.2 others hR
        refine ⟨⟨by rw [h2.1.1, h1.1.1], by rw [h2.1.2.1, h1.1.2.1],
          by rw [h2.1.2.2, h1.1.2.2]⟩, ?_⟩
        intro l hl
        rcases List.mem_append.mp hl with ha | hb
        · exact h1.2 l ha
        · exact h2.2 l hb

end

end Jack

namespace Jack

theorem foldl_add_argument_vars (vs : List Variable) (st : SymbolTable) :
    ∃ ext, (vs.foldl
      (fun st p => st.add_argument p.identifier p.var_type.debugFormat)
      st).vars = st.vars ++ ext := by
  induction vs generalizing st with
  | nil => exact ⟨[], by simp⟩
  | cons v vs ih =>
    obtain ⟨ext, hext⟩ :=
      ih (st.add_argument v.identifier v.var_type.debugFormat)
    refine ⟨⟨v.identifier, .argument, v.var_type.debugFormat,
      st.find_next_index .argument⟩ :: ext, ?_⟩
    rw [List.foldl_cons, hext]
    simp [SymbolTable.add_argument]

theorem foldl_add_local_vars (vs : List Variable) (st : SymbolTable) :
    ∃ ext, (vs.foldl
      (fun st var => st.add_local var.identifier var.var_type.debugFormat)
      st).vars = st.vars ++ ext := by
  induction vs generalizing st with
  | nil => exact ⟨[], by simp⟩
  | cons v vs ih =>
    obtain ⟨ext, hext⟩ :=
      ih (st.add_local v.identifier v.var_type.debugFormat)
    refine ⟨⟨v.identifier, .localVar, v.var_type.debugFormat,
      st.find_next_index .localVar⟩ :: ext, ?_⟩
    rw [List.foldl_cons, hext]
    simp [SymbolTable.add_local]

mutual

/-- The `var`-declaration pre-pass only appends entries to the table. -/
theorem find_var_decl_vars_extend : ∀ (s : Statement) (st : SymbolTable),
    ∃ ext, (find_var_decl_in_statement_tree s st).vars = st.vars ++ ext
  | .letStmt _ _, st => ⟨[], by simp [find_var_decl_in_statement_tree]⟩
  | .whileStmt _ body, st => by
    obtain ⟨ext, h⟩ := find_var_decl_list_vars_extend body st
    exact ⟨ext, by simpa [find_var_decl_in_statement_tree] using h⟩
  | .doStmt _, st => ⟨[], by simp [find_var_decl_in_statement_tree]⟩
  | .ifStmt _ if_body else_body, st => by
    obtain ⟨e1, h1⟩ := find_var_decl_list_vars_extend if_body st
    cases else_body with
    | none => exact ⟨e1, by simpa [find_var_decl_in_statement_tree] using h1⟩
    | some els =>
      obtain ⟨e2, h2⟩ := find_var_decl_list_vars_extend els
        (find_var_decl_in_statement_list if_body st)
      refine ⟨e1 ++ e2, ?_⟩
      simp only [find_var_decl_in_statement_tree]
      rw [h2, h1, List.append_assoc]
  | .returnStmt _, st => ⟨[], by simp [find_var_decl_in_statement_tree]⟩
  | .varDecl vs, st => by
    obtain ⟨ext, h⟩ := foldl_add_local_vars vs st
    exact ⟨ext, by simpa [find_var_decl_in_statement_tree] using h⟩

/-- `find_var_decl_vars_extend` for statement lists. -/
theorem find_var_decl_list_vars_extend : ∀ (ss : List Statement)
    (st : SymbolTable),
    ∃ ext, (find_var_decl_in_statement_list ss st).vars = st.vars ++ ext
  | [], st => ⟨[], by simp [find_var_decl_in_statement_list]⟩
  | s :: rest, st => by
    obtain ⟨e1, h1⟩ := find_var_decl_vars_extend s st
    obtain ⟨e2, h2⟩ := find_var_decl_list_vars_extend rest
      (find_var_decl_in_statement_tree s st)
    refine ⟨e1 ++ e2, ?_⟩
    simp only [find_var_decl_in_statement_list]
    rw [h2, h1, List.append_assoc]

end

/-- Popping a scope undoes any vars extension past a freshly pushed mark. -/
theorem pop_scope_of_extend (st : SymbolTable)
    (ext : List SymbolTableVariable) :
    SymbolTable.pop_scope
      ⟨st.vars ++ ext, st.scopes ++ [st.vars.length]⟩ = st := by
  simp only [SymbolTable.pop_scope, List.getLast?_concat,
    List.dropLast_concat, List.take_left]

end Jack

namespace Jack

/-- `compile_subroutines` output: exactly one `function` line, carrying the
inherited local count plus every recursively declared `var`; the resulting
context carries the pre-pass table and the unchanged names. -/
theorem compile_subroutines_spec (sub : Subroutine)
    (ctx : CompilationContext) (r : List String × CompilationContext)
    (h : compile_subroutines sub ctx = .ok r) :
    r.1.filter isFunctionLine =
      ["function " ++ ctx.class_name ++ "." ++ sub.identifier ++ " " ++
        toString (ctx.symbol_table.count_locals +
          varDeclCountList sub.statements)] ∧
    r.2.symbol_table =
      find_var_decl_in_statement_list sub.statements
        (sub.parameters.foldl
          (fun st p => st.add_argument p.identifier p.var_type.debugFormat)
          ctx.symbol_table) ∧
    r.2.class_name = ctx.class_name ∧
    r.2.subroutine_name = ctx.subroutine_name := by
  simp only [compile_subroutines] at h
  cases hB : compile_statement_list sub.statements
      { ctx with symbol_table := (find_var_decl_in_statement_list sub.statements (sub.parameters.foldl (fun st p => st.add_argument p.identifier p.var_type.debugFormat) ctx.symbol_table)) } with
  | error err => rw [hB, except_bind_error] at h; exact absurd h (by simp)
  | ok body =>
    rw [hB, except_bind_ok] at h
    simp only [Except.ok.injEq] at h
    subst h
    have hb := compile_statement_list_spec sub.statements _ body hB
    have hnil : List.filter isFunctionLine body.1 = [] := by
      rw [List.filter_eq_nil_iff]
      intro a ha
      simp [hb.2 a ha]
    have hN : (find_var_decl_in_statement_list sub.statements
        (sub.parameters.foldl
          (fun st p => st.add_argument p.identifier p.var_type.debugFormat)
          ctx.symbol_table)).count_locals =
        ctx.symbol_table.count_locals + varDeclCountList sub.statements := by
      rw [(find_var_decl_list_spec _ _).1, (foldl_add_argument_spec _ _).1]
    refine ⟨?_, hb.1.1, hb.1.2.1, hb.1.2.2⟩
    rw [List.filter_append, hnil, List.append_nil]
    rw [show (List.filter isFunctionLine
      ["function " ++ ctx.class_name ++ "." ++ sub.identifier ++ " " ++
        toString (find_var_decl_in_statement_list sub.statements
          (sub.parameters.foldl
            (fun st p => st.add_argument p.identifier p.var_type.debugFormat)
            ctx.symbol_table)).count_locals]) =
      ["function " ++ ctx.class_name ++ "." ++ sub.identifier ++ " " ++
        toString (find_var_decl_in_statement_list sub.statements
          (sub.parameters.foldl
            (fun st p => st.add_argument p.identifier p.var_type.debugFormat)
            ctx.symbol_table)).count_locals] from by
      simp [isFunctionLine, String.data_append,
        List.isPrefixOf_iff_prefix, List.append_assoc, List.prefix_append]]
    rw [hN]

end Jack

namespace Jack

/-- `pop_scope` restores any table whose vars extend a saved mark. -/
theorem pop_scope_eq (t st : SymbolTable) (ext : List SymbolTableVariable)
    (hv : t.vars = st.vars ++ ext)
    (hs : t.scopes = st.scopes ++ [st.vars.length]) :
    t.pop_scope = st := by
  obtain ⟨tv, ts⟩ := t
  dsimp only at hv hs
  subst hv
  subst hs
  exact pop_scope_of_extend st ext

/-- The per-subroutine loop: the `function` lines of the output enumerate
the subroutines in order, each carrying the entry local count plus its own
recursive `var` count. -/
theorem compile_class_loop_spec : ∀ (subs : List Subroutine)
    (ctx : CompilationContext) (out : List String),
    compile_class_loop subs ctx = .ok out →
    out.filter isFunctionLine = subs.map (fun sub =>
      "function " ++ ctx.class_name ++ "." ++ sub.identifier ++ " " ++
        toString (ctx.symbol_table.count_locals +
          varDeclCountList sub.statements))
  | [], ctx, out => by
    intro h
    simp only [compile_class_loop, Except.ok.injEq] at h
    subst h
    simp
  | sub :: rest, ctx, out => by
    intro h
    simp only [compile_class_loop] at h
    cases hR : compile_subroutines sub
        ({ ctx with symbol_table := ctx.symbol_table.create_scope, subroutine_name := sub.identifier }) with
    | error err => rw [hR, except_bind_error] at h; exact absurd h (by simp)
    | ok r =>
      rw [hR, except_bind_ok] at h
      cases hO : compile_class_loop rest
          ({ r.2 with symbol_table := r.2.symbol_table.pop_scope }) with
      | error err =>
        rw [hO, except_bind_error] at h
        exact absurd h (by simp)
      | ok outRest =>
        rw [hO, except_bind_ok] at h
        simp only [Except.ok.injEq] at h
        subst h
        have hs := compile_subroutines_spec sub _ r hR
        obtain ⟨e1, h1⟩ := foldl_add_argument_vars sub.parameters
          ctx.symbol_table.create_scope
        obtain ⟨e2, h2⟩ := find_var_decl_list_vars_extend sub.statements
          (sub.parameters.foldl
            (fun st p => st.add_argument p.identifier p.var_type.debugFormat)
            ctx.symbol_table.create_scope)
        have hpop : r.2.symbol_table.pop_scope = ctx.symbol_table := by
          refine pop_scope_eq _ _ (e1 ++ e2) ?_ ?_
          · rw [hs.2.1]
            rw [h2, h1]
            simp [SymbolTable.create_scope, List.append_assoc]
          · rw [hs.2.1]
            rw [(find_var_decl_list_spec _ _).2,
              (foldl_add_argument_spec _ _).2]
            rfl
        have hrest := compile_class_loop_spec rest _ outRest hO
        rw [List.filter_append, hs.1, hrest, List.map_cons,
          List.singleton_append]
        rw [hpop]
        simp only [hs.2.2.1]
        rfl

end Jack

/-- C4: for every class AST accepted by the code generator, the lines of
the output that start with `function ` are exactly one
`function <Class>.<name> N` line per subroutine, in source order, where N
is the total number of variables declared by `var` statements anywhere in
that subroutine's body, including those nested inside `while` and `if`
bodies. -/
theorem compile_class_function_lines (c : Jack.Class) (out : List String)
    (h : Jack.compile_class c = .ok out) :
    out.filter Jack.isFunctionLine =
      c.subroutines.map (fun sub =>
        "function " ++ c.identifier ++ "." ++ sub.identifier ++ " " ++
          toString (Jack.varDeclCountList sub.statements)) := by
  have hl := Jack.compile_class_loop_spec c.subroutines
    (Jack.CompilationContext.new c.identifier) out h
  simpa [Jack.CompilationContext.new, SymbolTable.new,
    SymbolTable.count_locals] using hl

/-- Witness for `compile_class_function_lines`: a class whose single
subroutine declares one top-level local and two more inside a `while`
body; the only function line reads `function Main.main 3`. -/
theorem compile_class_function_lines_witness :
    List.filter Jack.isFunctionLine
      ["function Main.main 3", "label main.while.0.condition",
       "push constant 1", "if-goto main.while.0.while_body",
       "goto main.while.0.while_end", "label main.while.0.while_body",
       "push constant 5", "pop local 1", "goto main.while.0.condition",
       "label main.while.0.while_end", "push constant 0", "return"] =
      ["function Main.main 3"] := by
  have h := compile_class_function_lines ⟨"Main",
    [⟨.function, "main", [], .void,
      [.varDecl [⟨"a", .int⟩],
       .whileStmt (.constant (.int 1))
         [.varDecl [⟨"b", .int⟩, ⟨"c", .int⟩],
          .letStmt (.mk "b" none) (.constant (.int 5))],
       .returnStmt none]⟩], []⟩
    ["function Main.main 3", "label main.while.0.condition",
     "push constant 1", "if-goto main.while.0.while_body",
     "goto main.while.0.while_end", "label main.while.0.while_body",
     "push constant 5", "pop local 1", "goto main.while.0.condition",
     "label main.while.0.while_end", "push constant 0", "return"] rfl
  simpa using h

/-! ### C1/C2: the canonical Jack code generator

The code generation tested by compiler_tests.rs (constructor/method
support, symbol-table call resolution) is not present under src/; the
definitions below are reconstructed from the specification text and
validated against the expectations of those tests. -/

namespace Canonical

open Jack

/-- Modelled from the spec: the type-name string stored in the symbol
table; a class type renders as its bare class name (`call Square.draw 1`). -/
def typeName : VariableType → String
  | .array => "Array"
  | .int => "int"
  | .char => "char"
  | .boolean => "boolean"
  | .className n => n

mutual

/-- Modelled from the spec: expression lowering of the canonical
generator (post-order; `this`, strings and array reads supported). -/
def compile_expression (e : Expr) (ctx : CompilationContext) :
    Except CompilationError (List String) :=
  match e with
  | .constant (.int num_val) => .ok ["push constant " ++ toString num_val]
  | .constant (.str s) =>
    .ok (["push constant " ++ toString s.length, "call String.new 1"] ++
      s.data.foldr (fun ch acc =>
        ["push constant " ++ toString ch.toNat,
         "call String.appendChar 2"] ++ acc) [])
  | .constant (.keyword k) =>
    match k with
    | .trueC => .ok ["push constant 1", "neg"]
    | .falseC => .ok ["push constant 0"]
    | .nullC => .ok ["push constant 0"]
    | .thisC => .ok ["push pointer 0"]
  | .varRef (.mk name index) =>
    match index with
    | none =>
      match ctx.symbol_table.find_variable name with
      | none => .error (.missingVariable name)
      | some var =>
        .ok ["push " ++ scopeSegment var.scope ++ " " ++ toString var.index]
    | some i =>
      match ctx.symbol_table.find_variable name with
      | none => .error (.missingVariable name)
      | some var => do
        let idx ← compile_expression i ctx
        .ok (["push " ++ scopeSegment var.scope ++ " " ++ toString var.index]
          ++ idx ++ ["add", "pop pointer 1", "push that 0"])
  | .unaryExpr op e => do
    let inner ← compile_expression e ctx
    let operator := match op with
      | .minus => "neg"
      | .not => "not"
    .ok (inner ++ [operator])
  | .binaryExpr lhs op rhs => do
    let l ← compile_expression lhs ctx
    let r ← compile_expression rhs ctx
    .ok (l ++ r ++ [binaryOpInstr op])
  | .bracketedExpr e => compile_expression e ctx
  | .call c => compile_call c ctx

/-- Modelled from the spec: left-to-right argument evaluation. -/
def compile_expression_list (es : List Expr) (ctx : CompilationContext) :
    Except CompilationError (List String) :=
  match es with
  | [] => .ok []
  | e :: rest => do
    let first ← compile_expression e ctx
    let others ← compile_expression_list rest ctx
    .ok (first ++ others)

/-- Modelled from the spec: the call resolution rule.  A present target
that resolves as a variable v becomes a method call on v's class (receiver
pushed first, argument count incremented); an unresolved target is a
qualified function call; an absent target is a method call on the current
instance. -/
def compile_call (c : SubroutineCall) (ctx : CompilationContext) :
    Except CompilationError (List String) :=
  match c with
  | .mk target_name subroutine_name parameters => do
    let args ← compile_expression_list parameters ctx
    match target_name with
    | some t =>
      match ctx.symbol_table.find_variable t with
      | some v =>
        .ok (["push " ++ scopeSegment v.scope ++ " " ++ toString v.index] ++
          args ++ ["call " ++ v.var_type ++ "." ++ subroutine_name ++ " " ++
            toString (parameters.length + 1)])
      | none =>
        .ok (args ++ ["call " ++ t ++ "." ++ subroutine_name ++ " " ++
          toString parameters.length])
    | none =>
      .ok (["push pointer 0"] ++ args ++
        ["call " ++ ctx.class_name ++ "." ++ subroutine_name ++ " " ++
          toString (parameters.length + 1)])

end

mutual

/-- Modelled from the spec: statement lowering of the canonical generator
(array `let`, `do` through the call resolution rule; labels as in
compiler.rs). -/
def compile_statement (s : Statement) (ctx : CompilationContext) :
    Except CompilationError (List String × CompilationContext) :=
  match s with
  | .letStmt (.mk name idx) expression =>
    match idx with
    | none => do
      let e ← compile_expression expression ctx
      match ctx.symbol_table.find_variable name with
      | none => .error (.missingVariable name)
      | some var =>
        .ok (e ++ ["pop " ++ scopeSegment var.scope ++ " " ++
          toString var.index], ctx)
    | some i =>
      match ctx.symbol_table.find_variable name with
      | none => .error (.missingVariable name)
      | some var => do
        let iOut ← compile_expression i ctx
        let e ← compile_expression expression ctx
        .ok (["push " ++ scopeSegment var.scope ++ " " ++
          toString var.index] ++ iOut ++ ["add"] ++ e ++
          ["pop temp 0", "pop pointer 1", "push temp 0", "pop that 0"], ctx)
  | .whileStmt condition body =>
    let labelCtx := ctx.next_while_label
    do
      let cond ← compile_expression condition labelCtx.2
      let bodyOut ← compile_statement_list body labelCtx.2
      .ok (["label " ++ labelCtx.1 ++ ".condition"] ++ cond ++
        ["if-goto " ++ labelCtx.1 ++ ".while_body",
         "goto " ++ labelCtx.1 ++ ".while_end",
         "label " ++ labelCtx.1 ++ ".while_body"] ++ bodyOut.1 ++
        ["goto " ++ labelCtx.1 ++ ".condition",
         "label " ++ labelCtx.1 ++ ".while_end"], bodyOut.2)
  | .doStmt c => do
    let callOut ← compile_call c ctx
    .ok (callOut ++ ["pop temp 0"], ctx)
  | .ifStmt condition if_body else_body =>
    let labelCtx := ctx.next_if_label
    do
      let cond ← compile_expression condition labelCtx.2
      let elseOut ← match else_body with
        | some els => compile_statement_list els labelCtx.2
        | none => pure ([], labelCtx.2)
      let ifOut ← compile_statement_list if_body elseOut.2
      .ok (cond ++ ["if-goto " ++ labelCtx.1 ++ ".if_body"] ++ elseOut.1 ++
        ["goto " ++ labelCtx.1 ++ ".if_end",
         "label " ++ labelCtx.1 ++ ".if_body"] ++ ifOut.1 ++
        ["label " ++ labelCtx.1 ++ ".if_end"], ifOut.2)
  | .returnStmt (some expr) => do
    let v ← compile_expression expr ctx
    .ok (v ++ ["return"], ctx)
  | .returnStmt none => .ok (["push constant 0", "return"], ctx)
  | .varDecl _ => .ok ([], ctx)

/-- Modelled from the spec: the statement loops of the canonical
generator. -/
def compile_statement_list (ss : List Statement) (ctx : CompilationContext) :
    Except CompilationError (List String × CompilationContext) :=
  match ss with
  | [] => .ok ([], ctx)
  | s :: rest => do
    let first ← compile_statement s ctx
    let others ← compile_statement_list rest first.2
    .ok (first.1 ++ others.1, others.2)

end

mutual

/-- Modelled from the spec: the recursive `VarDecl` pre-pass of the
canonical generator (same scan as compiler.rs, storing bare type names). -/
def find_var_decl_in_statement_tree (s : Statement)
    (symbol_table : SymbolTable) : SymbolTable :=
  match s with
  | .letStmt _ _ => symbol_table
  | .whileStmt _ body => find_var_decl_in_statement_list body symbol_table
  | .doStmt _ => symbol_table
  | .ifStmt _ if_body else_body =>
    let st1 := find_var_decl_in_statement_list if_body symbol_table
    (match else_body with
     | some els => find_var_decl_in_statement_list els st1
     | none => st1)
  | .returnStmt _ => symbol_table
  | .varDecl vars =>
    vars.foldl
      (fun st var => st.add_local var.identifier (typeName var.var_type))
      symbol_table

/-- Modelled from the spec: body loops of the pre-pass. -/
def find_var_decl_in_statement_list (ss : List Statement)
    (symbol_table : SymbolTable) : SymbolTable :=
  match ss with
  | [] => symbol_table
  | s :: rest =>
    find_var_decl_in_statement_list rest
      (find_var_decl_in_statement_tree s symbol_table)

end

/-- Modelled from the spec: per-subroutine compilation.  A method first
registers the synthetic `this` argument; parameters are registered as
arguments; the pre-pass registers every recursive `var` as a local; then
the `function Class.name N` line, the kind-specific prologue (constructor:
allocate F = class field count words and set `pointer 0`; method: set
`pointer 0` from `argument 0`; function: nothing) and the compiled body
statements follow in that order. -/
def compile_subroutine (sub : Subroutine) (ctx : CompilationContext) :
    Except CompilationError (List String × CompilationContext) :=
  let stThis := match sub.subroutine_type with
    | .method => ctx.symbol_table.add_argument ("this") ctx.class_name
    | _ => ctx.symbol_table
  let st1 := sub.parameters.foldl
    (fun st p => st.add_argument p.identifier (typeName p.var_type)) stThis
  let st2 := find_var_decl_in_statement_list sub.statements st1
  let ctx1 := { ctx with symbol_table := st2 }
  let prologue := match sub.subroutine_type with
    | .constructor =>
      ["push constant " ++ toString ctx.symbol_table.count_fields,
       "call Memory.alloc 1", "pop pointer 0"]
    | .method => ["push argument 0", "pop pointer 0"]
    | .function => []
  do
    let body ← compile_statement_list sub.statements ctx1
    .ok (["function " ++ ctx.class_name ++ "." ++ sub.identifier ++ " " ++
      toString st2.count_locals] ++ prologue ++ body.1, body.2)

/-- Modelled from the spec: the per-subroutine loop (fresh scope pushed,
subroutine name set, popped after emission). -/
def compile_class_loop (subs : List Subroutine)
    (ctx : CompilationContext) : Except CompilationError (List String) :=
  match subs with
  | [] => .ok []
  | sub :: rest => do
    let ctx1 := { ctx with
      symbol_table := ctx.symbol_table.create_scope,
      subroutine_name := sub.identifier }
    let r ← compile_subroutine sub ctx1
    let ctx3 := { r.2 with symbol_table := r.2.symbol_table.pop_scope }
    let out ← compile_class_loop rest ctx3
    .ok (r.1 ++ out)

/-- Modelled from the spec: class compilation; the table is populated with
the class variables (field/static) before the subroutines are compiled. -/
def compile_class (c : Jack.Class) : Except CompilationError (List String) :=
  let ctx0 := CompilationContext.new c.identifier
  let st := c.vars.foldl
    (fun st v => match v.visibility with
      | .field => st.add_field v.identifier (typeName v.var_type)
      | .static => st.add_static v.identifier (typeName v.var_type))
    ctx0.symbol_table
  compile_class_loop c.subroutines { ctx0 with symbol_table := st }

end Canonical

/-- Validation against compiler_tests.rs `call_method_on_object`:
`do square.draw();` with `square` local 0 of class `Square`. -/
example :
    Canonical.compile_class ⟨"Main",
      [⟨.function, "main", [], .void,
        [.varDecl [⟨"square", .className "Square"⟩],
         .letStmt (.mk "square" none)
           (.call (.mk (some "Square") "new" [])),
         .doStmt (.mk (some "square") "draw" []),
         .returnStmt none]⟩], []⟩ =
    .ok ["function Main.main 1", "call Square.new 0", "pop local 0",
      "push local 0", "call Square.draw 1", "pop temp 0",
      "push constant 0", "return"] := by rfl

/-- Validation against compiler_tests.rs `compile_class_with_constructor`:
class `Point` with two fields and a constructor. -/
example :
    Canonical.compile_class ⟨"Point",
      [⟨.constructor, "new", [⟨"ax", .int⟩, ⟨"ay", .int⟩],
        .className "Point",
        [.letStmt (.mk "x" none) (.varRef (.mk "ax" none)),
         .letStmt (.mk "y" none) (.varRef (.mk "ay" none)),
         .returnStmt (some (.constant (.keyword .thisC)))]⟩],
      [⟨.field, .int, "x"⟩, ⟨.field, .int, "y"⟩]⟩ =
    .ok ["function Point.new 0", "push constant 2", "call Memory.alloc 1",
      "pop pointer 0", "push argument 0", "pop this 0", "push argument 1",
      "pop this 1", "push pointer 0", "return"] := by rfl

/-- C1: in the canonical generator, a subroutine call whose target
resolves in the symbol table as a variable v emits `push <v.seg> <v.idx>`
for the receiver first, then the arguments, then
`call <v.type>.<name> <nargs+1>` with the argument count incremented for
the receiver; a `do` statement appends `pop temp 0`. -/
theorem canonical_method_call_on_variable (t sn : String)
    (ps : List Jack.Expr) (ctx : Jack.CompilationContext)
    (v : SymbolTableVariable) (args : List String)
    (hfind : ctx.symbol_table.find_variable t = some v)
    (hargs : Canonical.compile_expression_list ps ctx = .ok args) :
    Canonical.compile_call (.mk (some t) sn ps) ctx =
      .ok (["push " ++ Jack.scopeSegment v.scope ++ " " ++ toString v.index]
        ++ args ++ ["call " ++ v.var_type ++ "." ++ sn ++ " " ++
          toString (ps.length + 1)]) ∧
    Canonical.compile_statement (.doStmt (.mk (some t) sn ps)) ctx =
      .ok ((["push " ++ Jack.scopeSegment v.scope ++ " " ++
          toString v.index] ++ args ++ ["call " ++ v.var_type ++ "." ++ sn
          ++ " " ++ toString (ps.length + 1)]) ++ ["pop temp 0"], ctx) := by
  have h1 : Canonical.compile_call (.mk (some t) sn ps) ctx =
      .ok (["push " ++ Jack.scopeSegment v.scope ++ " " ++ toString v.index]
        ++ args ++ ["call " ++ v.var_type ++ "." ++ sn ++ " " ++
          toString (ps.length + 1)]) := by
    simp only [Canonical.compile_call]
    rw [hargs, except_bind_ok, hfind]
  refine ⟨h1, ?_⟩
  simp only [Canonical.compile_statement]
  rw [h1, except_bind_ok]

/-- Witness for `canonical_method_call_on_variable`: `do square.draw();`
with `square` stored as local 0 of declared class `Square` compiles to
`push local 0; call Square.draw 1; pop temp 0`. -/
theorem canonical_method_call_on_variable_witness :
    Canonical.compile_statement
      (.doStmt (.mk (some "square") "draw" []))
      ⟨⟨[⟨"square", .localVar, "Square", 0⟩], [0]⟩, "Main", "main", 0, 0⟩ =
    .ok (["push local 0", "call Square.draw 1", "pop temp 0"],
      ⟨⟨[⟨"square", .localVar, "Square", 0⟩], [0]⟩, "Main", "main", 0, 0⟩) :=
  (canonical_method_call_on_variable ("square") "draw" []
    ⟨⟨[⟨"square", .localVar, "Square", 0⟩], [0]⟩, "Main", "main", 0, 0⟩
    ⟨"square", .localVar, "Square", 0⟩ [] rfl rfl).2

/-- C2: in the canonical generator, a constructor subroutine's output is
the `function` line, then immediately the prologue
`push constant F; call Memory.alloc 1; pop pointer 0` with F the field
count of the class, then the compiled body statements. -/
theorem canonical_constructor_prologue (sub : Jack.Subroutine)
    (ctx : Jack.CompilationContext)
    (r : List String × Jack.CompilationContext)
    (ht : sub.subroutine_type = .constructor)
    (h : Canonical.compile_subroutine sub ctx = .ok r) :
    ∃ (nloc : Nat) (rest : List String),
      Canonical.compile_statement_list sub.statements
        ({ ctx with symbol_table := (Canonical.find_var_decl_in_statement_list sub.statements (sub.parameters.foldl (fun st p => st.add_argument p.identifier (Canonical.typeName p.var_type)) ctx.symbol_table)) }) = .ok (rest, r.2) ∧
      r.1 = ["function " ++ ctx.class_name ++ "." ++ sub.identifier ++ " "
          ++ toString nloc,
        "push constant " ++ toString ctx.symbol_table.count_fields,
        "call Memory.alloc 1", "pop pointer 0"] ++ rest := by
  simp only [Canonical.compile_subroutine, ht] at h
  cases hB : Canonical.compile_statement_list sub.statements
      ({ ctx with symbol_table := (Canonical.find_var_decl_in_statement_list sub.statements (sub.parameters.foldl (fun st p => st.add_argument p.identifier (Canonical.typeName p.var_type)) ctx.symbol_table)) }) with
  | error err => rw [hB, except_bind_error] at h; exact absurd h (by simp)
  | ok body =>
    obtain ⟨b1, b2⟩ := body
    rw [hB, except_bind_ok] at h
    simp only [Except.ok.injEq] at h
    subst h
    exact ⟨_, b1, rfl, rfl⟩

/-- Witness for `canonical_constructor_prologue`: the `Point` constructor
of compiler_tests.rs, compiled from the class-level context with fields
`x`, `y`: the function line is followed by `push constant 2;
call Memory.alloc 1; pop pointer 0` and then the compiled body. -/
theorem canonical_constructor_prologue_witness :
    ∃ (nloc : Nat) (rest : List String),
      Canonical.compile_statement_list
        [.letStmt (.mk "x" none) (.varRef (.mk "ax" none)),
         .letStmt (.mk "y" none) (.varRef (.mk "ay" none)),
         .returnStmt (some (.constant (.keyword .thisC)))]
        ⟨⟨[⟨"x", .field, "int", 0⟩, ⟨"y", .field, "int", 1⟩,
           ⟨"ax", .argument, "int", 0⟩, ⟨"ay", .argument, "int", 1⟩], [2]⟩,
         "Point", "new", 0, 0⟩ =
        .ok (rest,
          ⟨⟨[⟨"x", .field, "int", 0⟩, ⟨"y", .field, "int", 1⟩,
             ⟨"ax", .argument, "int", 0⟩, ⟨"ay", .argument, "int", 1⟩],
            [2]⟩, "Point", "new", 0, 0⟩) ∧
      ["function Point.new 0", "push constant 2", "call Memory.alloc 1",
       "pop pointer 0", "push argument 0", "pop this 0", "push argument 1",
       "pop this 1", "push pointer 0", "return"] =
      ["function Point.new " ++ toString nloc, "push constant 2",
       "call Memory.alloc 1", "pop pointer 0"] ++ rest :=
  canonical_constructor_prologue
    ⟨.constructor, "new", [⟨"ax", .int⟩, ⟨"ay", .int⟩], .className "Point",
      [.letStmt (.mk "x" none) (.varRef (.mk "ax" none)),
       .letStmt (.mk "y" none) (.varRef (.mk "ay" none)),
       .returnStmt (some (.constant (.keyword .thisC)))]⟩
    ⟨⟨[⟨"x", .field, "int", 0⟩, ⟨"y", .field, "int", 1⟩], [2]⟩,
      "Point", "new", 0, 0⟩
    (["function Point.new 0", "push constant 2", "call Memory.alloc 1",
      "pop pointer 0", "push argument 0", "pop this 0", "push argument 1",
      "pop this 1", "push pointer 0", "return"],
     ⟨⟨[⟨"x", .field, "int", 0⟩, ⟨"y", .field, "int", 1⟩,
        ⟨"ax", .argument, "int", 0⟩, ⟨"ay", .argument, "int", 1⟩], [2]⟩,
      "Point", "new", 0, 0⟩)
    rfl rfl
